import Mathlib

/-!
Verification of the codex-switch profile/credential synchronization core.

This development gives a shallow embedding of the credential-file writer
(`src/auth/codex-auth-sync.ts`), the credential parser
(`loadAuthDataFromFile` in `auth-manager`), and the profile manager
(`src/auth/profile-manager.ts`), and proves the specification's claims
about them.

Modelling conventions:
* JSON values are represented by the inductive type `Json`; objects are
  association lists of fields in insertion order (JavaScript preserves
  insertion order for string keys, and `JSON.stringify` serializes in that
  order).  File contents are modelled as the `Json` value they parse to;
  `JSON.parse (JSON.stringify x) = x` is the identity in this
  representation, so pretty-printing and the trailing newline are
  abstracted away.
* JavaScript truthiness is modelled explicitly (`jsTruthy`, `optStrTruthy`,
  `jsOr`) wherever the source relies on it.
* Mutation-free translation: the TypeScript deep-copies `rawPayload`
  before mutating it; in the pure embedding every operation returns a new
  value, so "the input record is untouched" holds by construction and the
  interesting content of that requirement — that the copy starts from the
  raw payload and only the token fields are overwritten — is what gets
  proved.
-/

/-- JSON values.  Objects keep their fields as an insertion-ordered
association list, mirroring JavaScript object semantics. -/
inductive Json where
  | null : Json
  | bool (b : Bool) : Json
  | num (n : Int) : Json
  | str (s : String) : Json
  | arr (elems : List Json) : Json
  | obj (fields : List (String × Json)) : Json

/-- Field lookup in a JSON object's field list (returns the first binding;
JavaScript objects cannot contain duplicate keys). -/
def jlookup : List (String × Json) → String → Option Json
  | [], _ => none
  | (k', v) :: rest, k => if k' = k then some v else jlookup rest k

/-- JavaScript property assignment `o[k] = v` on an object's field list:
an existing key keeps its position, a new key is appended. -/
def setField : List (String × Json) → String → Json → List (String × Json)
  | [], k, v => [(k, v)]
  | (k', v') :: rest, k, v =>
      if k' = k then (k, v) :: rest else (k', v') :: setField rest k v

/-- Property access `o.k` on an arbitrary JavaScript value: objects look
the key up, every other value yields `undefined` (`none`).  (Accessing a
property of `null`/`undefined` throws in JavaScript; the source always
guards those accesses with truthiness checks, which the embedding mirrors,
so the `none` result for non-objects is only ever produced for primitives,
where it is faithful.) -/
def jprop : Json → String → Option Json
  | .obj fields, k => jlookup fields k
  | _, _ => none

/-- JavaScript truthiness of a possibly-`undefined` JSON value:
`undefined`, `null`, `false`, `0` and `""` are falsy; objects and arrays
are truthy. -/
def jsTruthy : Option Json → Bool
  | none => false
  | some .null => false
  | some (.bool b) => b
  | some (.num n) => n != 0
  | some (.str s) => s != ""
  | some (.arr _) => true
  | some (.obj _) => true

/-- JavaScript truthiness of a `string | undefined` value. -/
def optStrTruthy : Option String → Bool
  | none => false
  | some s => s != ""

/-- JavaScript `x || y` on `string | undefined` values: yields `x` when
`x` is truthy, otherwise `y` unchanged. -/
def jsOr (x y : Option String) : Option String :=
  if optStrTruthy x then x else y

/-- Strict equality `v === s` between an arbitrary JavaScript value and a
string: true exactly when `v` is that same string. -/
def jStrEqOpt (v : Option Json) (w : Option String) : Bool :=
  match v, w with
  | some (.str s), some t => s == t
  | _, _ => false

/-- The in-memory credential record (`AuthData` in `types.ts`).
`authJson`, when present, is the raw external-file payload, which the
program only ever obtains from a successfully parsed credential file and
is therefore a JSON object; the embedding types it as the object's field
list. -/
structure AuthData where
  idToken : String
  accessToken : String
  refreshToken : String
  accountId : Option String
  email : String
  planType : String
  authJson : Option (List (String × Json))

/-- The starting payload of `buildCodexAuthJson`: the raw payload when
present (deep-copied by the source; copying is the identity in the pure
embedding), else an empty object. -/
def rawPayloadFields (authData : AuthData) : List (String × Json) :=
  match authData.authJson with
  | some fields => fields
  | none => []

/-- The initial `tokens` sub-object of the payload: reset to `{}` when
absent or not an object. -/
def rawTokensFields (authData : AuthData) : List (String × Json) :=
  match jlookup (rawPayloadFields authData) "tokens" with
  | some (.obj fields) => fields
  | _ => []

/-- The `tokens` sub-object after `buildCodexAuthJson` overwrote it:
`id_token`, `access_token`, `refresh_token` always, `account_id` only when
the record carries a truthy one. -/
def buildTokens (authData : AuthData) : List (String × Json) :=
  let t1 := setField (rawTokensFields authData) "id_token" (.str authData.idToken)
  let t2 := setField t1 "access_token" (.str authData.accessToken)
  let t3 := setField t2 "refresh_token" (.str authData.refreshToken)
  if optStrTruthy authData.accountId then
    setField t3 "account_id" (.str (authData.accountId.getD ""))
  else t3

/-- `buildCodexAuthJson` from `codex-auth-sync.ts`: start from a deep copy
of the raw payload when it is an object (else an empty object), ensure a
`tokens` sub-object, overwrite its three token fields, and set
`account_id` only when the record carries a truthy one.  The source
returns the pretty-printed string of this payload; the embedding returns
the payload itself. -/
def buildCodexAuthJson (authData : AuthData) : List (String × Json) :=
  setField (rawPayloadFields authData) "tokens" (.obj (buildTokens authData))

/-- The record produced by the credential parser.  The token fields are
read straight off the parsed JSON (`authJson.tokens.id_token` etc.), so
they are `undefined` when absent and otherwise arbitrary JSON values;
`email` and `planType` come from the decoded id-token claims with the
`"Unknown"` fallback. -/
structure RawAuthData where
  idToken : Option Json
  accessToken : Option Json
  refreshToken : Option Json
  accountId : Option Json
  email : Json
  planType : Json
  authJson : Json

/-- `loadAuthDataFromFile` from `auth-manager`: fails soft (`none`) when
the file is missing, unreadable, not JSON, or its `tokens` field is falsy;
otherwise returns the token fields together with identity claims decoded
from the id token.  The file argument is the parsed content (`none` for
the missing/unreadable/invalid cases, which the source collapses into the
same `null` result).  `decodeJwt` is the JWT payload decoder (`parseJWT`'s
successful branch); the embedding is parameterized by it because the
base64url/JSON decoding is opaque string processing — `parseJWT` returns
`{}` on any failure and on non-string input (where `token.split` throws),
which the wrapper here reproduces. -/
def loadAuthDataFromFile (decodeJwt : String → List (String × Json))
    (file : Option Json) : Option RawAuthData :=
  match file with
  | none => none
  | some authJson =>
    let tokens := jprop authJson "tokens"
    if jsTruthy tokens then
      let idTok := tokens.bind fun t => jprop t "id_token"
      let claims : List (String × Json) :=
        match idTok with
        | some (.str s) => decodeJwt s
        | _ => []
      let emailClaim := jlookup claims "email"
      let planClaim :=
        (jlookup claims "https://api.openai.com/auth").bind
          fun v => jprop v "chatgpt_plan_type"
      some {
        idToken := idTok
        accessToken := tokens.bind fun t => jprop t "access_token"
        refreshToken := tokens.bind fun t => jprop t "refresh_token"
        accountId := tokens.bind fun t => jprop t "account_id"
        email := if jsTruthy emailClaim then emailClaim.getD .null else .str "Unknown"
        planType := if jsTruthy planClaim then planClaim.getD .null else .str "Unknown"
        authJson := authJson
      }
    else none

/-! ## JavaScript string primitives

`String.startsWith`/`endsWith`/`toLowerCase`/`trim`/`includes` and string
comparison are modelled over the character list of the string, which the
kernel can evaluate. -/

/-- `s.startsWith(p)`. -/
def jsStartsWith (s p : String) : Bool :=
  p.data.isPrefixOf s.data

/-- `s.endsWith(p)`. -/
def jsEndsWith (s p : String) : Bool :=
  p.data.isSuffixOf s.data

/-- `s.toLowerCase()` (ASCII-faithful). -/
def jsToLower (s : String) : String :=
  String.mk (s.data.map Char.toLower)

/-- `s.trim()`: strip leading and trailing whitespace. -/
def jsTrim (s : String) : String :=
  String.mk (((s.data.dropWhile Char.isWhitespace).reverse.dropWhile
    Char.isWhitespace).reverse)

/-- Substring containment on character lists (for `s.includes(pat)`). -/
def listContainsSub (pat : List Char) : List Char → Bool
  | [] => pat.isEmpty
  | c :: rest => pat.isPrefixOf (c :: rest) || listContainsSub pat rest

/-- `s.includes(pat)`. -/
def jsIncludes (s pat : String) : Bool :=
  listContainsSub pat.data s.data

/-- The string ordering used to model `localeCompare` (for the plain
ASCII names compared by the source, locale order and code-point order
coincide; the source itself relies on this for backup names). -/
def strLe (a b : String) : Prop := a.data ≤ b.data

instance : DecidableRel strLe := fun a b => inferInstanceAs (Decidable (a.data ≤ b.data))

/-! ## Credential file writer (`codex-auth-sync.ts`)

The directory containing the external auth file is modelled as an
association list from file name to parsed content.  `readdirSync` order is
irrelevant to the source (it sorts before acting), and every entry is a
regular file (the `st.isFile()` guard in `pruneAuthBackups` only skips
directories, which do not occur beside the auth file in the scenarios
specified). -/

/-- A directory: file name ↦ file content (content modelled as the JSON
value the file holds). -/
abbrev Dir := List (String × Json)

/-- Look a file up by name. -/
def dirGet (d : Dir) (n : String) : Option Json :=
  jlookup d n

/-- Create or overwrite a file: an existing name keeps its position, a new
file is added at the front of the listing.  (`readdirSync` order is
OS-dependent and the source never relies on it — it sorts before acting —
so the model is free to fix newest-first listing order.) -/
def dirSet (d : Dir) (n : String) (c : Json) : Dir :=
  if d.any (fun e => e.1 = n) then d.map (fun e => if e.1 = n then (n, c) else e)
  else (n, c) :: d

/-- Delete a file by name. -/
def dirRemove (d : Dir) (n : String) : Dir :=
  d.filter fun e => e.1 ≠ n

/-- `pad2`: `String(n).padStart(2, '0')`. -/
def pad2 (n : Nat) : String :=
  if n < 10 then "0" ++ toString n else toString n

/-- A `Date` as the source observes it: the values of the getters it
calls.  `month` is `getMonth()` (0-based); `epochMs` is `getTime()`. -/
structure DateT where
  fullYear : Nat
  month : Nat
  dayOfMonth : Nat
  hours : Nat
  minutes : Nat
  seconds : Nat
  epochMs : Nat

/-- `backupSuffix`: the `YYYYMMDD-HHMMSS` timestamp string. -/
def backupSuffix (now : DateT) : String :=
  toString now.fullYear ++ pad2 (now.month + 1) ++ pad2 now.dayOfMonth ++ "-"
    ++ pad2 now.hours ++ pad2 now.minutes ++ pad2 now.seconds

/-- `coerceMaxBackups`: a finite number is floored and clamped at 0, any
other input (modelled by `none`) falls back to the default. -/
def coerceMaxBackups (value : Option Int) (fallback : Nat) : Nat :=
  match value with
  | none => fallback
  | some n => n.toNat

/-- `pruneAuthBackups`: list the directory, keep the names starting with
`<base>.bak.`, sort them descending (the suffix makes lexicographic order
chronological), and delete every backup beyond the newest `maxBackups`. -/
def pruneAuthBackups (d : Dir) (base : String) (maxBackups : Nat) : Dir :=
  let pfx := base ++ ".bak."
  let backups :=
    ((d.map Prod.fst).filter fun n => jsStartsWith n pfx).insertionSort
      fun a b => strLe b a
  let excess := backups.drop maxBackups
  d.filter fun e => ¬ excess.contains e.1

/-- The temporary file name `auth.json.tmp.<pid>.<getTime()>`. -/
def tmpName (pid : Nat) (now : DateT) : String :=
  "auth.json.tmp." ++ toString pid ++ "." ++ toString now.epochMs

/-- `syncCodexAuthFile`: back the existing target up (when retention is
positive), prune, write a temporary file and rename it onto the target.
The rename succeeds in the model (the POSIX branch of the source); the
`finally` cleanup then finds the temporary file already gone.  `base` is
the basename of the target path inside directory `d`. -/
def syncCodexAuthFile (d : Dir) (base : String) (authData : AuthData)
    (now : DateT) (pid : Nat) (maxBackupsOpt : Option Int) : Dir :=
  let tmp := tmpName pid now
  let content := Json.obj (buildCodexAuthJson authData)
  let maxBackups := coerceMaxBackups maxBackupsOpt 10
  let d1 :=
    if maxBackups > 0 then
      match dirGet d base with
      | some old => dirSet d (base ++ ".bak." ++ backupSuffix now) old
      | none => d
    else d
  let d2 := pruneAuthBackups d1 base maxBackups
  let d3 := dirSet d2 tmp content
  dirSet (dirRemove d3 tmp) base content

/-- `k` successive sync writes of records `auths 0, …, auths (k-1)` at
times `dates 0, …, dates (k-1)` into an initially empty directory, with
retention `maxBackups`. -/
def syncSeq (base : String) (auths : Nat → AuthData) (dates : Nat → DateT)
    (pid : Nat) (maxBackups : Nat) : Nat → Dir
  | 0 => []
  | k + 1 =>
      syncCodexAuthFile (syncSeq base auths dates pid maxBackups k) base
        (auths k) (dates k) pid (some maxBackups)

/-- The backup file names present in a directory, in listing order. -/
def backupNames (d : Dir) (base : String) : List String :=
  (d.map Prod.fst).filter fun n => jsStartsWith n (base ++ ".bak.")

/-! ## Profile manager (`profile-manager.ts`)

The manager's durable state is modelled explicitly:
* `registryFile` — the `profiles.json` content;
* `secrets` — the secret store (`context.secrets`), key ↦ stored token
  record (values are `JSON.stringify`ed `ProfileTokens` in the source and
  always parse back, so they are kept structured here);
* `bucket` — the memento holding the active/last pointers and the one-time
  migration flag.  The embedding fixes the `activeProfileScope`
  configuration to `'global'` (the default), under which `getStateBucket`
  and `getLegacyStateBucket` both return `context.globalState`, the same
  memento that holds the migration flag;
* `legacyRoot` — the sibling storage directories under the global-storage
  root (name ↦ their `profiles.json` content), `none` when the root is
  missing or unreadable (both make migration give up); the entries are the
  directory entries of `readdirSync(root, {withFileTypes: true})` that are
  directories;
* `authDir` — the directory holding the external `auth.json`
  (`getDefaultCodexAuthPath()` resolves to basename `auth.json`);
* `lastSyncedProfileId`, `pid`, `currentDirName` — process-local values.

Every operation takes the state and returns its result paired with the
successor state. -/

/-- A profile's durable secret payload (`ProfileTokens`). -/
structure ProfileTokens where
  idToken : String
  accessToken : String
  refreshToken : String
  accountId : Option String
  authJson : Option (List (String × Json))

/-- Non-secret profile metadata (`ProfileSummary` in `types.ts`). -/
structure ProfileSummary where
  id : String
  name : String
  email : String
  planType : String
  accountId : Option String
  createdAt : String
  updatedAt : String

/-- The memento bucket holding pointer state (scope fixed to `global`):
current and pre-rename keys for the active and last pointers, plus the
one-time legacy-migration flag. -/
structure Bucket where
  active : Option String      -- codexSwitch.activeProfileId
  oldActive : Option String   -- codexUsage.activeProfileId
  last : Option String        -- codexSwitch.lastProfileId
  oldLast : Option String     -- codexUsage.lastProfileId
  migratedLegacy : Bool       -- codexSwitch.migratedLegacyProfiles

/-- Content of a `profiles.json` file: missing, unreadable-or-invalid
JSON (`fs.readFileSync`/`JSON.parse` throws), or a parsed JSON value. -/
inductive RegFile where
  | missing : RegFile
  | corrupt : RegFile
  | content (j : Json) : RegFile

/-- The whole manager state. -/
structure ManagerState where
  registryFile : RegFile
  secrets : List (String × ProfileTokens)
  bucket : Bucket
  legacyRoot : Option (List (String × RegFile))
  currentDirName : String
  authDir : Dir
  lastSyncedProfileId : Option String
  pid : Nat

/-- `parseProfilesFile`: accept a bare array, any object whose `profiles`
field is an array (this check subsumes both the unversioned legacy shape
and the current versioned shape), and fall back to the empty registry for
every other shape. -/
def parseProfilesFile : Json → List Json
  | .arr profiles => profiles
  | .obj fields =>
      match jlookup fields "profiles" with
      | some (.arr profiles) => profiles
      | _ => []
  | _ => []

/-- `readProfilesFile`: a missing file or any read/parse failure yields
the empty registry. -/
def readProfilesFile (st : ManagerState) : List Json :=
  match st.registryFile with
  | .missing => []
  | .corrupt => []
  | .content j => parseProfilesFile j

/-- `writeProfilesFile`: always writes the current versioned shape. -/
def writeProfilesFile (profiles : List Json) : RegFile :=
  .content (.obj [("version", .num 1), ("profiles", .arr profiles)])

/-- `codexSwitch.profile.<id>`. -/
def secretKey (profileId : String) : String :=
  "codexSwitch.profile." ++ profileId

/-- `codexUsage.profile.<id>` (pre-rename scheme). -/
def legacySecretKey (profileId : String) : String :=
  "codexUsage.profile." ++ profileId

/-- Look a secret up by key. -/
def secretsGet (secrets : List (String × ProfileTokens)) (k : String) :
    Option ProfileTokens :=
  match secrets with
  | [] => none
  | (k', v) :: rest => if k' = k then some v else secretsGet rest k

/-- `context.secrets.delete(k)` (succeeds whether or not the key exists). -/
def secretsDelete (secrets : List (String × ProfileTokens)) (k : String) :
    List (String × ProfileTokens) :=
  secrets.filter fun e => e.1 ≠ k

/-- The candidate-ordering rank used by legacy migration: directory names
containing `codex-switch` (case-insensitively) sort first, then
`codex-stats`, then everything else. -/
def legacyRank (n : String) : Nat :=
  if jsIncludes (jsToLower n) "codex-switch" then 0
  else if jsIncludes (jsToLower n) "codex-stats" then 1
  else 2

/-- Set the one-time migration flag. -/
def setMigratedFlag (st : ManagerState) : ManagerState :=
  { st with bucket := { st.bucket with migratedLegacy := true } }

/-- Whether a legacy candidate directory can be adopted: its
`profiles.json` exists, is readable and valid JSON, and parses to a
non-empty profile list. -/
def adoptableIn (entries : List (String × RegFile)) (n : String) : Bool :=
  match jlookupRF entries n with
  | some (.content j) => !(parseProfilesFile j).isEmpty
  | _ => false
where
  /-- Association lookup among the sibling directories. -/
  jlookupRF : List (String × RegFile) → String → Option RegFile
    | [], _ => none
    | (k', v) :: rest, k => if k' = k then some v else jlookupRF rest k

/-- The profile list a candidate directory contributes. -/
def profilesOfEntry (entries : List (String × RegFile)) (n : String) :
    List Json :=
  match adoptableIn.jlookupRF entries n with
  | some (.content j) => parseProfilesFile j
  | _ => []

/-- `tryMigrateLegacyProfilesOnce`: when the one-time flag is unset and
the registry is empty, scan the sibling storage directories whose names
end in one of the two historical suffixes (skipping the current
directory), order them `codex-switch` first, adopt the profile metadata of
the first candidate with a non-empty readable registry, and finally set
the one-time flag in every case. -/
def tryMigrateLegacyProfilesOnce (st : ManagerState) : ManagerState :=
  if st.bucket.migratedLegacy then st
  else if 0 < (readProfilesFile st).length then setMigratedFlag st
  else
    match st.legacyRoot with
    | none => setMigratedFlag st
    | some entries =>
      let candidates :=
        (entries.map Prod.fst).filter fun n =>
          n ≠ st.currentDirName &&
            (jsEndsWith n ".codex-switch" || jsEndsWith n ".codex-stats")
      let sorted :=
        candidates.insertionSort fun a b => legacyRank a ≤ legacyRank b
      match sorted.find? (adoptableIn entries) with
      | some dirName =>
          setMigratedFlag
            { st with registryFile := writeProfilesFile (profilesOfEntry entries dirName) }
      | none => setMigratedFlag st

/-- `p.id === profileId` for a registry entry `p` (strict equality between
the entry's `id` property and the given id string). -/
def hasId (p : Json) (profileId : String) : Bool :=
  match jprop p "id" with
  | some (.str s) => s == profileId
  | _ => false

/-- The `name` property of a registry entry, as the string the sort
comparator receives (registry entries written by this program always
carry a string name). -/
def nameOf (p : Json) : String :=
  match jprop p "name" with
  | some (.str s) => s
  | _ => ""

/-- `listProfiles`: run one-time migration, read the registry, and return
the profiles sorted by name. -/
def listProfiles (st : ManagerState) : List Json × ManagerState :=
  let st1 := tryMigrateLegacyProfilesOnce st
  ((readProfilesFile st1).insertionSort (fun a b => strLe (nameOf a) (nameOf b)), st1)

/-- `getProfile`. -/
def getProfile (st : ManagerState) (profileId : String) :
    Option Json × ManagerState :=
  let (profiles, st1) := listProfiles st
  (profiles.find? (hasId · profileId), st1)

/-- `normalizeEmail`: `String(email || '').trim().toLowerCase()` applied
to a registry entry's `email` property.  A falsy value normalizes to the
empty string; registry emails written by this program are strings
(non-string truthy values, which `String(…)` would coerce, do not occur). -/
def normalizeEmailJ (v : Option Json) : String :=
  match v with
  | some (.str s) => jsToLower (jsTrim s)
  | _ => ""

/-- `normalizeEmail` applied to a credential record's (string) email. -/
def normalizeEmail (email : String) : String :=
  jsToLower (jsTrim email)

/-- `matchesAuth`: account-id equality (both truthy) short-circuits;
otherwise both normalized emails must be non-empty, not `"unknown"`, and
equal. -/
def matchesAuth (p : Json) (authData : AuthData) : Bool :=
  if optStrTruthy authData.accountId && jsTruthy (jprop p "accountId")
      && jStrEqOpt (jprop p "accountId") authData.accountId then
    true
  else
    let pe := normalizeEmailJ (jprop p "email")
    let ae := normalizeEmail authData.email
    if pe == "" || ae == "" then false
    else if pe == "unknown" || ae == "unknown" then false
    else pe == ae

/-- `findDuplicateProfile`: the first registry entry matching the
credential (reads the raw registry, no migration, no sort). -/
def findDuplicateProfile (st : ManagerState) (authData : AuthData) :
    Option Json × ManagerState :=
  ((readProfilesFile st).find? (matchesAuth · authData), st)

/-- The string value of a registry entry's property, as the source reads
`profile.email` / `profile.planType` (string-typed fields). -/
def strPropOf (p : Json) (k : String) : String :=
  match jprop p k with
  | some (.str s) => s
  | _ => ""

/-- `loadAuthData`: `none` when the profile is not in the registry, or
when neither the current-scheme nor the legacy-scheme secret entry exists
(`get(newKey) || get(legacyKey)`; stored secrets are non-empty JSON
strings, hence truthy, and always parse back). -/
def loadAuthData (st : ManagerState) (profileId : String) :
    Option AuthData × ManagerState :=
  let (profile, st1) := getProfile st profileId
  match profile with
  | none => (none, st1)
  | some p =>
    let raw :=
      match secretsGet st1.secrets (secretKey profileId) with
      | some t => some t
      | none => secretsGet st1.secrets (legacySecretKey profileId)
    match raw with
    | none => (none, st1)
    | some tokens =>
        (some {
          idToken := tokens.idToken
          accessToken := tokens.accessToken
          refreshToken := tokens.refreshToken
          accountId := tokens.accountId
          email := strPropOf p "email"
          planType := strPropOf p "planType"
          authJson := tokens.authJson
        }, st1)

/-- `getActiveProfileId` on the bucket: return the current key when
truthy, else migrate the pre-rename key lazily. -/
def getActiveB (b : Bucket) : Option String × Bucket :=
  if optStrTruthy b.active then (b.active, b)
  else
    let old := jsOr b.oldActive b.oldActive
    if optStrTruthy old then
      (old, { b with active := old, oldActive := none })
    else (none, b)

/-- `getLastProfileId` on the bucket. -/
def getLastB (b : Bucket) : Option String × Bucket :=
  if optStrTruthy b.last then (b.last, b)
  else
    let old := jsOr b.oldLast b.oldLast
    if optStrTruthy old then
      (old, { b with last := old, oldLast := none })
    else (none, b)

/-- `setLastProfileId` on the bucket: set the current key, clear the
pre-rename key. -/
def setLastB (b : Bucket) (v : Option String) : Bucket :=
  { b with last := v, oldLast := none }

/-- `getActiveProfileId`. -/
def getActiveProfileId (st : ManagerState) : Option String × ManagerState :=
  let (v, b) := getActiveB st.bucket
  (v, { st with bucket := b })

/-- `getLastProfileId`. -/
def getLastProfileId (st : ManagerState) : Option String × ManagerState :=
  let (v, b) := getLastB st.bucket
  (v, { st with bucket := b })

/-- `setActiveProfileId`: with a truthy id, the profile's tokens must load
(else the call is rejected with `false` and nothing else happens); on
acceptance the previous truthy active id (if different) becomes the last
pointer, the active pointer updates, and the external auth file is synced
with the already-loaded tokens.  A falsy id is always accepted, clears the
pointer and does not sync. -/
def setActiveProfileId (st : ManagerState) (now : DateT)
    (profileId : Option String) : Bool × ManagerState :=
  let prev := jsOr st.bucket.active st.bucket.oldActive
  match profileId with
  | some s =>
    if s ≠ "" then
      let (authData, st1) := loadAuthData st s
      match authData with
      | none => (false, st1)
      | some ad =>
        let st2 :=
          if optStrTruthy prev && (prev != some s) then
            { st1 with bucket := setLastB st1.bucket prev }
          else st1
        let st3 :=
          { st2 with bucket := { st2.bucket with active := some s, oldActive := none } }
        (true,
          { st3 with
            authDir := syncCodexAuthFile st3.authDir "auth.json" ad now st3.pid none
            lastSyncedProfileId := some s })
    else
      (true, { st with bucket := { st.bucket with active := some s, oldActive := none } })
  | none =>
      (true, { st with bucket := { st.bucket with active := none, oldActive := none } })

/-- `toggleLastProfileId`: no-op when the last pointer is falsy; otherwise
try to activate it, and on success store the previous active id (when
truthy) as the new last pointer. -/
def toggleLastProfileId (st : ManagerState) (now : DateT) :
    Option String × ManagerState :=
  let (active, st1) := getActiveProfileId st
  let (last, st2) := getLastProfileId st1
  match last with
  | none => (none, st2)
  | some l =>
    if l = "" then (none, st2)
    else
      let (ok, st3) := setActiveProfileId st2 now (some l)
      let st4 :=
        if ok && optStrTruthy active then
          { st3 with bucket := setLastB st3.bucket active }
        else st3
      (if ok then some l else none, st4)

/-- `deleteProfile`: remove the metadata entry (failing with `false` when
the id is absent), delete both secret keys, then clear whichever of the
active/last pointers referenced the deleted profile. -/
def deleteProfile (st : ManagerState) (now : DateT) (profileId : String) :
    Bool × ManagerState :=
  let file := readProfilesFile st
  let remaining := file.filter fun p => !hasId p profileId
  if remaining.length = file.length then (false, st)
  else
    let st1 := { st with registryFile := writeProfilesFile remaining }
    let st2 :=
      { st1 with
        secrets := secretsDelete (secretsDelete st1.secrets (secretKey profileId))
          (legacySecretKey profileId) }
    let (active, st3) := getActiveProfileId st2
    let (last, st4) := getLastProfileId st3
    let st5 :=
      if active == some profileId then (setActiveProfileId st4 now none).2 else st4
    let st6 :=
      if last == some profileId then { st5 with bucket := setLastB st5.bucket none }
      else st5
    (true, st6)

/-! ## Derived definitions used in the claim statements and witnesses -/

/-- Validity of a credential record for the round-trip law: either the
record carries a truthy `accountId` (which the writer then emits), or its
raw payload's `tokens.account_id` agrees with the record's `accountId`
(which is how the parser itself produces records: it copies
`tokens.account_id` into the record and keeps the whole payload). -/
def validAuthData (a : AuthData) : Prop :=
  optStrTruthy a.accountId = true ∨
    jlookup (rawTokensFields a) "account_id" = a.accountId.map Json.str

/-- The registry entry a `ProfileSummary` is stored as (the object literal
built by `createProfile`, in its insertion order; `JSON.stringify` omits
an `undefined` `accountId`). -/
def encodeProfile (p : ProfileSummary) : Json :=
  .obj ([("id", .str p.id), ("name", .str p.name), ("email", .str p.email),
      ("planType", .str p.planType)]
    ++ (match p.accountId with
        | some s => [("accountId", .str s)]
        | none => [])
    ++ [("createdAt", .str p.createdAt), ("updatedAt", .str p.updatedAt)])

/-- The duplicate-match condition exactly as the specification words it:
(a) both the credential and the profile have a non-empty `accountId` and
the two are equal, or (b) both trimmed, lower-cased emails are non-empty,
differ from `"unknown"`, and are equal. -/
def dupMatchSpec (p : ProfileSummary) (a : AuthData) : Prop :=
  (a.accountId ≠ none ∧ a.accountId ≠ some "" ∧ p.accountId ≠ none ∧
    p.accountId ≠ some "" ∧ a.accountId = p.accountId) ∨
  (normalizeEmail p.email ≠ "" ∧ normalizeEmail a.email ≠ "" ∧
    normalizeEmail p.email ≠ "unknown" ∧ normalizeEmail a.email ≠ "unknown" ∧
    normalizeEmail p.email = normalizeEmail a.email)

instance (p : ProfileSummary) (a : AuthData) : Decidable (dupMatchSpec p a) := by
  unfold dupMatchSpec
  infer_instance

/-- An "unrecognized" registry shape per the claim's own taxonomy minus
the shapes the code really accepts: not a bare array, and not an object
whose `profiles` field is an array. -/
def unrecognizedShape (j : Json) : Prop :=
  (∀ ps, j ≠ .arr ps) ∧
  (∀ fields, j = .obj fields → ∀ ps, jlookup fields "profiles" ≠ some (.arr ps))

/-- Registry used by the toggle witnesses: profiles with ids `a` and `b`. -/
def toggleWitRegistry : RegFile :=
  writeProfilesFile [encodeProfile ⟨"a", "A", "ea", "pro", none, "c", "u"⟩,
    encodeProfile ⟨"b", "B", "eb", "pro", none, "c", "u"⟩]

/-- Secret store used by the toggle witnesses: tokens for both profiles. -/
def toggleWitSecrets : List (String × ProfileTokens) :=
  [("codexSwitch.profile.a", ⟨"i", "ac", "r", none, none⟩),
    ("codexSwitch.profile.b", ⟨"i2", "ac2", "r2", none, none⟩)]

/-- Legacy sibling directories used by claim C9's witness: an older
`codex-stats` install and a newer `codex-switch` install, each with a
one-profile legacy registry (bare-array shape). -/
def c9Entries : List (String × RegFile) :=
  [("pub.codex-stats", .content (.arr [.obj [("id", .str "old1")]])),
    ("pub.codex-switch", .content (.arr [.obj [("id", .str "new1")]]))]

/-- Credential record used by the backup-retention witness. -/
def c6Auth : AuthData := ⟨"i", "a", "r", none, "e", "p", none⟩

/-- Strictly increasing write times used by the backup-retention
witness. -/
def c6Dates : Nat → DateT := fun n => ⟨2024, 0, 1, 0, 0, n, n⟩

/-! ## Basic lemmas about JSON field assignment and directory updates -/

theorem jlookup_setField_self (fs : List (String × Json)) (k : String) (v : Json) :
    jlookup (setField fs k v) k = some v := by
  induction fs with
  | nil => simp [setField, jlookup]
  | cons e rest ih =>
    obtain ⟨k', v'⟩ := e
    by_cases h : k' = k
    · simp [setField, jlookup, h]
    · simp [setField, jlookup, h, ih]

theorem jlookup_setField_ne (fs : List (String × Json)) (k k' : String) (v : Json)
    (h : k ≠ k') : jlookup (setField fs k v) k' = jlookup fs k' := by
  induction fs with
  | nil => simp [setField, jlookup, h]
  | cons e rest ih =>
    obtain ⟨k₀, v₀⟩ := e
    by_cases h₀ : k₀ = k
    · subst h₀
      simp [setField, jlookup, h, ih]
    · by_cases h₁ : k₀ = k'
      · subst h₁
        simp only [setField, jlookup]
        rw [if_neg (fun hh => h hh.symm)]
        simp [jlookup]
      · simp [setField, jlookup, h₀, h₁, ih]

theorem jlookup_mapUpdate (d : Dir) (n : String) (c : Json)
    (h : d.any (fun e => e.1 = n) = true) :
    jlookup (d.map fun e => if e.1 = n then (n, c) else e) n = some c := by
  induction d with
  | nil => simp at h
  | cons e rest ih =>
    obtain ⟨k, v⟩ := e
    by_cases hk : k = n
    · simp only [List.map_cons]
      rw [show (if ((k, v) : String × Json).1 = n then (n, c) else (k, v)) = (n, c)
        from by simp [hk]]
      show (if n = n then some c else _) = some c
      rw [if_pos rfl]
    · simp only [List.map_cons]
      rw [show (if ((k, v) : String × Json).1 = n then (n, c) else (k, v)) = (k, v)
        from by simp [hk]]
      show (if k = n then some v else _) = some c
      rw [if_neg hk]
      apply ih
      rcases List.any_eq_true.mp h with ⟨x, hx, hxn⟩
      rcases List.mem_cons.mp hx with h1 | h1
      · exfalso
        apply hk
        rw [h1] at hxn
        simpa using hxn
      · exact List.any_eq_true.mpr ⟨x, h1, hxn⟩

theorem dirGet_dirSet_self (d : Dir) (n : String) (c : Json) :
    dirGet (dirSet d n c) n = some c := by
  unfold dirSet
  by_cases h : d.any (fun e => e.1 = n) = true
  · rw [if_pos h]
    exact jlookup_mapUpdate d n c h
  · rw [if_neg h]
    show (if n = n then some c else _) = some c
    rw [if_pos rfl]

/-! ## Claim C1: write/parse round-trip -/

theorem jlookup_buildTokens_id (a : AuthData) :
    jlookup (buildTokens a) "id_token" = some (.str a.idToken) := by
  unfold buildTokens
  by_cases h : optStrTruthy a.accountId
  · simp only [h, if_true]
    rw [jlookup_setField_ne _ _ _ _ (by decide),
      jlookup_setField_ne _ _ _ _ (by decide),
      jlookup_setField_ne _ _ _ _ (by decide), jlookup_setField_self]
  · simp only [h, if_false, Bool.false_eq_true]
    rw [jlookup_setField_ne _ _ _ _ (by decide),
      jlookup_setField_ne _ _ _ _ (by decide), jlookup_setField_self]

theorem jlookup_buildTokens_access (a : AuthData) :
    jlookup (buildTokens a) "access_token" = some (.str a.accessToken) := by
  unfold buildTokens
  by_cases h : optStrTruthy a.accountId
  · simp only [h, if_true]
    rw [jlookup_setField_ne _ _ _ _ (by decide),
      jlookup_setField_ne _ _ _ _ (by decide), jlookup_setField_self]
  · simp only [h, if_false, Bool.false_eq_true]
    rw [jlookup_setField_ne _ _ _ _ (by decide), jlookup_setField_self]

theorem jlookup_buildTokens_refresh (a : AuthData) :
    jlookup (buildTokens a) "refresh_token" = some (.str a.refreshToken) := by
  unfold buildTokens
  by_cases h : optStrTruthy a.accountId
  · simp only [h, if_true]
    rw [jlookup_setField_ne _ _ _ _ (by decide), jlookup_setField_self]
  · simp only [h, if_false, Bool.false_eq_true]
    rw [jlookup_setField_self]

theorem jlookup_buildTokens_account (a : AuthData) (h : validAuthData a) :
    jlookup (buildTokens a) "account_id" = a.accountId.map Json.str := by
  unfold buildTokens
  by_cases ht : optStrTruthy a.accountId
  · simp only [ht, if_true]
    rw [jlookup_setField_self]
    match a, ht with
    | ⟨_, _, _, some s, _, _, _⟩, ht => simp
  · simp only [ht, if_false, Bool.false_eq_true]
    rcases h with h | h
    · exact absurd h (by simp [ht])
    · rw [jlookup_setField_ne _ _ _ _ (by decide),
        jlookup_setField_ne _ _ _ _ (by decide),
        jlookup_setField_ne _ _ _ _ (by decide)]
      exact h

/-- Reduction of the parser on an object whose `tokens` field is an
object. -/
theorem loadAuthDataFromFile_obj (decodeJwt : String → List (String × Json))
    (fields ts : List (String × Json))
    (h : jlookup fields "tokens" = some (.obj ts)) :
    loadAuthDataFromFile decodeJwt (some (.obj fields)) =
      some {
        idToken := jlookup ts "id_token"
        accessToken := jlookup ts "access_token"
        refreshToken := jlookup ts "refresh_token"
        accountId := jlookup ts "account_id"
        email :=
          let claims : List (String × Json) :=
            match jlookup ts "id_token" with
            | some (.str s) => decodeJwt s
            | _ => []
          if jsTruthy (jlookup claims "email") then (jlookup claims "email").getD .null
          else .str "Unknown"
        planType :=
          let claims : List (String × Json) :=
            match jlookup ts "id_token" with
            | some (.str s) => decodeJwt s
            | _ => []
          let planClaim :=
            (jlookup claims "https://api.openai.com/auth").bind
              fun v => jprop v "chatgpt_plan_type"
          if jsTruthy planClaim then planClaim.getD .null else .str "Unknown"
        authJson := .obj fields } := by
  unfold loadAuthDataFromFile
  simp only [jprop, h]
  rfl

/-- Claim C1: writing a valid credential record with
`buildCodexAuthJson`/`syncCodexAuthFile` and then parsing the written file
with `loadAuthDataFromFile` yields a record whose three token fields
(`idToken`, `accessToken`, `refreshToken`) and `accountId` are exactly
those of the original record.  (`syncCodexAuthFile` leaves
`buildCodexAuthJson`'s payload at the target path, and parsing that
payload succeeds and recovers the fields.) -/
theorem auth_roundtrip (decodeJwt : String → List (String × Json))
    (a : AuthData) (h : validAuthData a) :
    (∀ d now pid mb,
        dirGet (syncCodexAuthFile d "auth.json" a now pid mb) "auth.json"
          = some (.obj (buildCodexAuthJson a))) ∧
    (loadAuthDataFromFile decodeJwt (some (.obj (buildCodexAuthJson a)))).map
        (fun r => (r.idToken, r.accessToken, r.refreshToken, r.accountId))
      = some (some (.str a.idToken), some (.str a.accessToken),
          some (.str a.refreshToken), a.accountId.map Json.str) := by
  have htok : jlookup (buildCodexAuthJson a) "tokens" = some (.obj (buildTokens a)) := by
    unfold buildCodexAuthJson
    exact jlookup_setField_self _ _ _
  constructor
  · intro d now pid mb
    unfold syncCodexAuthFile
    exact dirGet_dirSet_self _ _ _
  · rw [loadAuthDataFromFile_obj decodeJwt _ _ htok]
    simp only [Option.map_some]
    rw [jlookup_buildTokens_id, jlookup_buildTokens_access,
      jlookup_buildTokens_refresh, jlookup_buildTokens_account a h]
    rfl

/-- Concrete instance of claim C1's theorem: a record with truthy
`accountId` and no raw payload round-trips. -/
theorem auth_roundtrip_witness :
    validAuthData ⟨"tok-i", "tok-a", "tok-r", some "acct-1", "e@x", "pro", none⟩ ∧
    (loadAuthDataFromFile (fun _ => [])
        (some (.obj (buildCodexAuthJson
          ⟨"tok-i", "tok-a", "tok-r", some "acct-1", "e@x", "pro", none⟩)))).map
        (fun r => (r.idToken, r.accessToken, r.refreshToken, r.accountId))
      = some (some (.str "tok-i"), some (.str "tok-a"), some (.str "tok-r"),
          some (.str "acct-1")) :=
  ⟨Or.inl (by decide),
    (auth_roundtrip (fun _ => [])
      ⟨"tok-i", "tok-a", "tok-r", some "acct-1", "e@x", "pro", none⟩
      (Or.inl (by decide))).2⟩

/-! ## Claim C2: the writer preserves unknown fields -/

/-- Claim C2: for a record whose raw payload is present,
`buildCodexAuthJson` preserves every top-level field other than `tokens`
unchanged, preserves every field of the original `tokens` object other
than the overwritten `id_token`/`access_token`/`refresh_token`/`account_id`,
and leaves `account_id` itself untouched when the record carries no truthy
one.  The input record is not mutated: the builder is a pure function of
the record (the source deep-copies the payload before writing to it), and
its output is assembled with `setField` from the unchanged
`rawPayloadFields`/`rawTokensFields` of the input. -/
theorem buildCodexAuthJson_preserves_fields (a : AuthData)
    (fs : List (String × Json)) (hraw : a.authJson = some fs) :
    (∀ k, k ≠ "tokens" → jlookup (buildCodexAuthJson a) k = jlookup fs k) ∧
    (∀ ts, jlookup fs "tokens" = some (.obj ts) →
      ∀ k, k ≠ "id_token" → k ≠ "access_token" → k ≠ "refresh_token" →
        k ≠ "account_id" →
        jlookup (buildTokens a) k = jlookup ts k) ∧
    (optStrTruthy a.accountId = false →
      jlookup (buildTokens a) "account_id" = jlookup (rawTokensFields a) "account_id") := by
  have hpay : rawPayloadFields a = fs := by
    unfold rawPayloadFields
    rw [hraw]
  refine ⟨?_, ?_, ?_⟩
  · intro k hk
    unfold buildCodexAuthJson
    rw [hpay, jlookup_setField_ne _ _ _ _ (fun hh => hk hh.symm)]
  · intro ts hts k h₁ h₂ h₃ h₄
    have htf : rawTokensFields a = ts := by
      unfold rawTokensFields
      rw [hpay, hts]
    unfold buildTokens
    by_cases hacct : optStrTruthy a.accountId
    · simp only [hacct, if_true]
      rw [jlookup_setField_ne _ _ _ _ (fun hh => h₄ hh.symm),
        jlookup_setField_ne _ _ _ _ (fun hh => h₃ hh.symm),
        jlookup_setField_ne _ _ _ _ (fun hh => h₂ hh.symm),
        jlookup_setField_ne _ _ _ _ (fun hh => h₁ hh.symm), htf]
    · simp only [hacct, if_false, Bool.false_eq_true]
      rw [jlookup_setField_ne _ _ _ _ (fun hh => h₃ hh.symm),
        jlookup_setField_ne _ _ _ _ (fun hh => h₂ hh.symm),
        jlookup_setField_ne _ _ _ _ (fun hh => h₁ hh.symm), htf]
  · intro hacct
    unfold buildTokens
    simp only [hacct, if_false, Bool.false_eq_true]
    rw [jlookup_setField_ne _ _ _ _ (by decide),
      jlookup_setField_ne _ _ _ _ (by decide),
      jlookup_setField_ne _ _ _ _ (by decide)]

/-- Concrete instance of claim C2's theorem: an extra top-level field
`foo: 1` and an extra `tokens.token_data: 2` survive the write, and with
no truthy `accountId` no `account_id` appears. -/
theorem buildCodexAuthJson_preserves_fields_witness :
    (⟨"ni", "na", "nr", none, "e", "p",
        some [("foo", .num 1), ("tokens", .obj [("token_data", .num 2)])]⟩ :
      AuthData).authJson
        = some [("foo", .num 1), ("tokens", .obj [("token_data", .num 2)])] ∧
    jlookup (buildCodexAuthJson
        ⟨"ni", "na", "nr", none, "e", "p",
          some [("foo", .num 1), ("tokens", .obj [("token_data", .num 2)])]⟩) "foo"
      = some (.num 1) ∧
    jlookup (buildTokens
        ⟨"ni", "na", "nr", none, "e", "p",
          some [("foo", .num 1), ("tokens", .obj [("token_data", .num 2)])]⟩) "token_data"
      = some (.num 2) ∧
    jlookup (buildTokens
        ⟨"ni", "na", "nr", none, "e", "p",
          some [("foo", .num 1), ("tokens", .obj [("token_data", .num 2)])]⟩) "account_id"
      = none := by
  have h := buildCodexAuthJson_preserves_fields
    ⟨"ni", "na", "nr", none, "e", "p",
      some [("foo", .num 1), ("tokens", .obj [("token_data", .num 2)])]⟩
    [("foo", .num 1), ("tokens", .obj [("token_data", .num 2)])] rfl
  refine ⟨rfl, ?_, ?_, ?_⟩
  · exact (h.1 "foo" (by decide)).trans rfl
  · exact (h.2.1 [("token_data", .num 2)] rfl "token_data"
      (by decide) (by decide) (by decide) (by decide)).trans rfl
  · exact (h.2.2 (by decide)).trans rfl

/-! ## Claim C4: duplicate matching -/

theorem jprop_encodeProfile_accountId (p : ProfileSummary) :
    jprop (encodeProfile p) "accountId" = p.accountId.map Json.str := by
  cases h : p.accountId <;> simp only [encodeProfile, h] <;> rfl

theorem jprop_encodeProfile_email (p : ProfileSummary) :
    jprop (encodeProfile p) "email" = some (.str p.email) := by
  rfl

/-- `matchesAuth` on a stored profile entry decides exactly the
specification's duplicate condition. -/
theorem matchesAuth_iff_dupMatchSpec (p : ProfileSummary) (a : AuthData) :
    matchesAuth (encodeProfile p) a = true ↔ dupMatchSpec p a := by
  unfold matchesAuth dupMatchSpec
  rw [jprop_encodeProfile_accountId, jprop_encodeProfile_email]
  have hnorm : normalizeEmailJ (some (.str p.email)) = normalizeEmail p.email := rfl
  rw [hnorm]
  cases ha : a.accountId with
  | none =>
    cases hp : p.accountId with
    | none =>
      simp only [optStrTruthy, Option.map_none, jsTruthy, jStrEqOpt,
        Bool.false_and, Bool.and_false, if_false]
      constructor
      · intro h
        right
        by_cases h₁ : normalizeEmail p.email = ""
        · simp [h₁] at h
        · by_cases h₂ : normalizeEmail a.email = ""
          · simp [h₂] at h
          · by_cases h₃ : normalizeEmail p.email = "unknown"
            · simp [h₁, h₂, h₃] at h
            · by_cases h₄ : normalizeEmail a.email = "unknown"
              · simp [h₁, h₂, h₃, h₄] at h
              · refine ⟨h₁, h₂, h₃, h₄, ?_⟩
                simpa [h₁, h₂, h₃, h₄] using h
      · rintro (⟨hc, -⟩ | ⟨h₁, h₂, h₃, h₄, h₅⟩)
        · simp at hc
        · simp [h₁, h₂, h₃, h₄, h₅]
    | some t =>
      simp only [optStrTruthy, jsTruthy, jStrEqOpt, Bool.false_and, if_false]
      constructor
      · intro h
        right
        by_cases h₁ : normalizeEmail p.email = ""
        · simp [h₁] at h
        · by_cases h₂ : normalizeEmail a.email = ""
          · simp [h₂] at h
          · by_cases h₃ : normalizeEmail p.email = "unknown"
            · simp [h₁, h₂, h₃] at h
            · by_cases h₄ : normalizeEmail a.email = "unknown"
              · simp [h₁, h₂, h₃, h₄] at h
              · refine ⟨h₁, h₂, h₃, h₄, ?_⟩
                simpa [h₁, h₂, h₃, h₄] using h
      · rintro (⟨hc, -⟩ | ⟨h₁, h₂, h₃, h₄, h₅⟩)
        · simp at hc
        · simp [h₁, h₂, h₃, h₄, h₅]
  | some s =>
    cases hp : p.accountId with
    | none =>
      simp only [optStrTruthy, Option.map_none, jsTruthy, jStrEqOpt,
        Bool.and_false, Bool.false_and, if_false]
      constructor
      · intro h
        right
        by_cases h₁ : normalizeEmail p.email = ""
        · simp [h₁] at h
        · by_cases h₂ : normalizeEmail a.email = ""
          · simp [h₂] at h
          · by_cases h₃ : normalizeEmail p.email = "unknown"
            · simp [h₁, h₂, h₃] at h
            · by_cases h₄ : normalizeEmail a.email = "unknown"
              · simp [h₁, h₂, h₃, h₄] at h
              · refine ⟨h₁, h₂, h₃, h₄, ?_⟩
                simpa [h₁, h₂, h₃, h₄] using h
      · rintro (⟨-, -, hc, -⟩ | ⟨h₁, h₂, h₃, h₄, h₅⟩)
        · simp at hc
        · simp [h₁, h₂, h₃, h₄, h₅]
    | some t =>
      by_cases hmatch : s ≠ "" ∧ t ≠ "" ∧ s = t
      · obtain ⟨hs, ht, hst⟩ := hmatch
        subst hst
        simp [optStrTruthy, jsTruthy, jStrEqOpt, hs, ht]
      · have hcond : (optStrTruthy (some s) && jsTruthy (Option.map Json.str (some t))
            && jStrEqOpt (Option.map Json.str (some t)) (some s)) = false := by
          simp only [Option.map_some']
          rcases not_and_or.mp hmatch with hs | hmm
          · simp at hs
            simp [optStrTruthy, hs]
          · rcases not_and_or.mp hmm with ht | hst
            · simp at ht
              simp [jsTruthy, ht]
            · simp only [optStrTruthy, jsTruthy, jStrEqOpt]
              rcases eq_or_ne t s with h | h
              · exact absurd h.symm hst
              · simp [h]
        rw [hcond]
        simp only [Bool.false_eq_true, if_false]
        constructor
        · intro h
          right
          by_cases h₁ : normalizeEmail p.email = ""
          · simp [h₁] at h
          · by_cases h₂ : normalizeEmail a.email = ""
            · simp [h₂] at h
            · by_cases h₃ : normalizeEmail p.email = "unknown"
              · simp [h₁, h₂, h₃] at h
              · by_cases h₄ : normalizeEmail a.email = "unknown"
                · simp [h₁, h₂, h₃, h₄] at h
                · refine ⟨h₁, h₂, h₃, h₄, ?_⟩
                  simpa [h₁, h₂, h₃, h₄] using h
        · rintro (⟨-, hs, -, ht, hc⟩ | ⟨h₁, h₂, h₃, h₄, h₅⟩)
          · exfalso
            apply hmatch
            refine ⟨by simpa using hs, by simpa using ht, ?_⟩
            simpa using hc
          · simp [h₁, h₂, h₃, h₄, h₅]

/-- Claim C4: `findDuplicateProfile` reports a stored profile as the
duplicate of a credential exactly when the specification's condition
holds: equal non-empty `accountId`s (regardless of email, which the
condition does not consult), or trimmed lower-cased emails that are
non-empty, differ from `"unknown"` (so two `"Unknown"` emails never
match), and are equal (hence case-insensitive).  The registry scan
returns the first such profile. -/
theorem findDuplicateProfile_spec (st : ManagerState)
    (sums : List ProfileSummary) (a : AuthData)
    (hreg : st.registryFile = writeProfilesFile (sums.map encodeProfile)) :
    (findDuplicateProfile st a).1
      = (sums.find? fun p => decide (dupMatchSpec p a)).map encodeProfile := by
  have hread : readProfilesFile st = sums.map encodeProfile := by
    rw [show readProfilesFile st = match st.registryFile with
        | .missing => [] | .corrupt => [] | .content j => parseProfilesFile j
      from rfl, hreg]
    rfl
  show (readProfilesFile st).find? (matchesAuth · a) = _
  rw [hread, List.find?_map]
  have hfun : ((fun p => matchesAuth p a) ∘ encodeProfile)
      = fun p => decide (dupMatchSpec p a) := by
    funext p
    simp only [Function.comp]
    by_cases h : dupMatchSpec p a
    · rw [(matchesAuth_iff_dupMatchSpec p a).mpr h]
      simp [h]
    · cases hb : matchesAuth (encodeProfile p) a
      · simp [h]
      · exact absurd ((matchesAuth_iff_dupMatchSpec p a).mp hb) h
  rw [hfun]

/-- Concrete instance of claim C4's theorem: a credential with
`accountId = "A1"` and email `"Bob@X.com"` is matched against a stored
profile with `accountId = "A1"` and email `"bob@x.com"`. -/
theorem findDuplicateProfile_spec_witness :
    (⟨writeProfilesFile
          ([⟨"id1", "work", "bob@x.com", "pro", some "A1", "c", "u"⟩].map encodeProfile),
        [], ⟨none, none, none, none, true⟩, none, "cur", [], none, 1⟩ :
      ManagerState).registryFile
      = writeProfilesFile
          ([⟨"id1", "work", "bob@x.com", "pro", some "A1", "c", "u"⟩].map encodeProfile) ∧
    (findDuplicateProfile
        ⟨writeProfilesFile
            ([⟨"id1", "work", "bob@x.com", "pro", some "A1", "c", "u"⟩].map encodeProfile),
          [], ⟨none, none, none, none, true⟩, none, "cur", [], none, 1⟩
        ⟨"i", "a", "r", some "A1", "Bob@X.com", "pro", none⟩).1
      = (([⟨"id1", "work", "bob@x.com", "pro", some "A1", "c", "u"⟩] :
            List ProfileSummary).find? fun p =>
          decide (dupMatchSpec p ⟨"i", "a", "r", some "A1", "Bob@X.com", "pro", none⟩)).map
          encodeProfile :=
  ⟨rfl,
    findDuplicateProfile_spec _ [⟨"id1", "work", "bob@x.com", "pro", some "A1", "c", "u"⟩]
      ⟨"i", "a", "r", some "A1", "Bob@X.com", "pro", none⟩ rfl⟩

/-! ## Claim C8: tolerance of corrupt or unrecognized registry files -/

/-- Counterexample to claim C8 as stated: the content
`{"version": 2, "profiles": [{"id": "p1"}]}` is not a bare array, not an
object with a `profiles` array *and no version*, and not the version-1
object — yet reading it does not yield the empty registry: the version
check in the source is subsumed by the object-with-`profiles`-array check,
which accepts any version tag. -/
theorem parseProfilesFile_version2_not_empty :
    parseProfilesFile
        (.obj [("version", .num 2), ("profiles", .arr [.obj [("id", .str "p1")]])])
      = [.obj [("id", .str "p1")]] ∧
    (listProfiles
        ⟨.content (.obj [("version", .num 2),
            ("profiles", .arr [.obj [("id", .str "p1")]])]),
          [], ⟨none, none, none, none, true⟩, none, "cur", [], none, 1⟩).1 ≠ [] := by
  constructor
  · rfl
  · intro h
    exact List.cons_ne_nil _ _ h

/-- Claim C8 (amended): for every registry file content that is invalid
JSON or of an unrecognized shape — not a bare array and not an object
whose `profiles` field is an array, whatever version tag it carries —
reading the registry yields the empty registry and `listProfiles` (once
the one-time legacy migration has already run, which otherwise could
adopt sibling-directory profiles into the empty registry) returns an
empty list; the embedding is total, so no exception propagates. -/
theorem corrupt_registry_reads_empty (st : ManagerState)
    (hshape : st.registryFile = .corrupt ∨
      ∃ j, st.registryFile = .content j ∧ unrecognizedShape j)
    (hmig : st.bucket.migratedLegacy = true) :
    readProfilesFile st = [] ∧ (listProfiles st).1 = [] := by
  have hread : readProfilesFile st = [] := by
    rcases hshape with h | ⟨j, hj, hun⟩
    · show (match st.registryFile with
        | .missing => [] | .corrupt => [] | .content j => parseProfilesFile j) = []
      rw [h]
    · show (match st.registryFile with
        | .missing => [] | .corrupt => [] | .content j => parseProfilesFile j) = []
      rw [hj]
      show parseProfilesFile j = []
      cases j with
      | arr ps => exact absurd rfl (hun.1 ps)
      | obj fields =>
        show (match jlookup fields "profiles" with
          | some (.arr profiles) => profiles | _ => []) = []
        rcases hlk : jlookup fields "profiles" with - | v
        · rfl
        · cases v with
          | arr ps => exact absurd hlk (hun.2 fields rfl ps)
          | null => rfl
          | bool b => rfl
          | num n => rfl
          | str s => rfl
          | obj fs => rfl
      | null => rfl
      | bool b => rfl
      | num n => rfl
      | str s => rfl
  refine ⟨hread, ?_⟩
  show ((readProfilesFile (tryMigrateLegacyProfilesOnce st)).insertionSort _) = []
  have hmigeq : tryMigrateLegacyProfilesOnce st = st := by
    unfold tryMigrateLegacyProfilesOnce
    rw [hmig]
    rfl
  rw [hmigeq, hread]
  rfl

/-- Concrete instance of claim C8's amended theorem: an unreadable
(invalid-JSON) registry file reads as the empty registry and lists no
profiles. -/
theorem corrupt_registry_reads_empty_witness :
    ((⟨.corrupt, [], ⟨none, none, none, none, true⟩, none, "cur", [], none, 1⟩ :
        ManagerState).registryFile = RegFile.corrupt ∨
      ∃ j, (⟨.corrupt, [], ⟨none, none, none, none, true⟩, none, "cur", [], none, 1⟩ :
        ManagerState).registryFile = .content j ∧ unrecognizedShape j) ∧
    readProfilesFile
        ⟨.corrupt, [], ⟨none, none, none, none, true⟩, none, "cur", [], none, 1⟩ = [] ∧
    (listProfiles
        ⟨.corrupt, [], ⟨none, none, none, none, true⟩, none, "cur", [], none, 1⟩).1 = [] :=
  ⟨Or.inl rfl,
    corrupt_registry_reads_empty
      ⟨.corrupt, [], ⟨none, none, none, none, true⟩, none, "cur", [], none, 1⟩
      (Or.inl rfl) rfl⟩

/-! ## Claim C3: rejected activation leaves state unchanged -/

/-- One-time migration only ever touches the registry file and the
migration flag: pointers, secrets, the external auth directory and the
sync cache are untouched. -/
theorem tryMigrate_frame (st : ManagerState) :
    (tryMigrateLegacyProfilesOnce st).bucket.active = st.bucket.active ∧
    (tryMigrateLegacyProfilesOnce st).bucket.oldActive = st.bucket.oldActive ∧
    (tryMigrateLegacyProfilesOnce st).bucket.last = st.bucket.last ∧
    (tryMigrateLegacyProfilesOnce st).bucket.oldLast = st.bucket.oldLast ∧
    (tryMigrateLegacyProfilesOnce st).secrets = st.secrets ∧
    (tryMigrateLegacyProfilesOnce st).authDir = st.authDir ∧
    (tryMigrateLegacyProfilesOnce st).lastSyncedProfileId = st.lastSyncedProfileId := by
  unfold tryMigrateLegacyProfilesOnce
  split
  · exact ⟨rfl, rfl, rfl, rfl, rfl, rfl, rfl⟩
  · split
    · exact ⟨rfl, rfl, rfl, rfl, rfl, rfl, rfl⟩
    · split
      · exact ⟨rfl, rfl, rfl, rfl, rfl, rfl, rfl⟩
      · dsimp only
        split
        · exact ⟨rfl, rfl, rfl, rfl, rfl, rfl, rfl⟩
        · exact ⟨rfl, rfl, rfl, rfl, rfl, rfl, rfl⟩

/-- The state after `loadAuthData` is the state after one-time migration
(the only stateful step on its path), whatever the result. -/
theorem loadAuthData_state (st : ManagerState) (profileId : String) :
    (loadAuthData st profileId).2 = tryMigrateLegacyProfilesOnce st := by
  unfold loadAuthData getProfile listProfiles
  dsimp only
  split
  · rfl
  · split
    · rfl
    · rfl

/-- Claim C3: when a profile's secret tokens cannot be loaded,
`setActiveProfileId` returns the failure signal and leaves the active
pointer, the last pointer (current and pre-rename keys of both), the
external credential file and the sync cache exactly as they were. -/
theorem setActive_rejected_unchanged (st : ManagerState) (now : DateT)
    (profileId : String) (hid : profileId ≠ "")
    (hload : (loadAuthData st profileId).1 = none) :
    (setActiveProfileId st now (some profileId)).1 = false ∧
    (setActiveProfileId st now (some profileId)).2.bucket.active = st.bucket.active ∧
    (setActiveProfileId st now (some profileId)).2.bucket.oldActive = st.bucket.oldActive ∧
    (setActiveProfileId st now (some profileId)).2.bucket.last = st.bucket.last ∧
    (setActiveProfileId st now (some profileId)).2.bucket.oldLast = st.bucket.oldLast ∧
    (setActiveProfileId st now (some profileId)).2.authDir = st.authDir ∧
    (setActiveProfileId st now (some profileId)).2.lastSyncedProfileId
      = st.lastSyncedProfileId := by
  have hpair : loadAuthData st profileId = (none, tryMigrateLegacyProfilesOnce st) := by
    have h0 : loadAuthData st profileId
        = ((loadAuthData st profileId).1, (loadAuthData st profileId).2) := rfl
    rw [h0, hload, loadAuthData_state]
  have hred : setActiveProfileId st now (some profileId)
      = (false, tryMigrateLegacyProfilesOnce st) := by
    unfold setActiveProfileId
    dsimp only
    rw [if_pos hid, hpair]
  obtain ⟨h₁, h₂, h₃, h₄, -, h₆, h₇⟩ := tryMigrate_frame st
  rw [hred]
  exact ⟨rfl, h₁, h₂, h₃, h₄, h₆, h₇⟩

/-- Concrete instance of claim C3's theorem: activating an id that is not
in the registry (so its tokens cannot load) is rejected and changes no
pointer, nor the auth directory. -/
theorem setActive_rejected_unchanged_witness :
    ("p1" : String) ≠ "" ∧
    (loadAuthData
        ⟨writeProfilesFile [], [], ⟨none, none, none, none, true⟩, none, "cur",
          [], none, 1⟩ "p1").1 = none ∧
    (setActiveProfileId
        ⟨writeProfilesFile [], [], ⟨none, none, none, none, true⟩, none, "cur",
          [], none, 1⟩ ⟨2024, 0, 1, 0, 0, 0, 0⟩ (some "p1")).1 = false ∧
    (setActiveProfileId
        ⟨writeProfilesFile [], [], ⟨none, none, none, none, true⟩, none, "cur",
          [], none, 1⟩ ⟨2024, 0, 1, 0, 0, 0, 0⟩ (some "p1")).2.bucket.active = none ∧
    (setActiveProfileId
        ⟨writeProfilesFile [], [], ⟨none, none, none, none, true⟩, none, "cur",
          [], none, 1⟩ ⟨2024, 0, 1, 0, 0, 0, 0⟩ (some "p1")).2.authDir = [] := by
  have h := setActive_rejected_unchanged
    ⟨writeProfilesFile [], [], ⟨none, none, none, none, true⟩, none, "cur", [], none, 1⟩
    ⟨2024, 0, 1, 0, 0, 0, 0⟩ "p1" (by decide) rfl
  exact ⟨by decide, rfl, h.1, h.2.1, h.2.2.2.2.2.1⟩

/-! ## Claims C5 and C10: the active/last toggle -/

theorem getActive_truthy (st : ManagerState) (p : String)
    (hA : st.bucket.active = some p) (hp : p ≠ "") :
    getActiveProfileId st = (some p, st) := by
  unfold getActiveProfileId getActiveB
  rw [hA]
  have ht : optStrTruthy (some p) = true := by simp [optStrTruthy, hp]
  rw [if_pos ht]

theorem getActive_all_falsy (st : ManagerState)
    (hA : st.bucket.active = none) (hOA : st.bucket.oldActive = none) :
    getActiveProfileId st = (none, st) := by
  unfold getActiveProfileId getActiveB
  rw [hA, hOA]
  rfl

theorem getLast_truthy (st : ManagerState) (q : String)
    (hL : st.bucket.last = some q) (hq : q ≠ "") :
    getLastProfileId st = (some q, st) := by
  unfold getLastProfileId getLastB
  rw [hL]
  have ht : optStrTruthy (some q) = true := by simp [optStrTruthy, hq]
  rw [if_pos ht]

/-- On a non-empty registry, one-time migration only sets the flag. -/
theorem tryMigrate_of_nonempty (st : ManagerState)
    (h : 0 < (readProfilesFile st).length) :
    tryMigrateLegacyProfilesOnce st = setMigratedFlag st := by
  unfold tryMigrateLegacyProfilesOnce
  rcases st with ⟨rf, sec, ⟨a, o, l, ol, m⟩, lr, cd, ad, ls, pid⟩
  cases m
  · simp only [Bool.false_eq_true, if_false]
    rw [if_pos h]
  · rfl

/-- When the profile is in the registry and its current-scheme secret is
stored, `loadAuthData` succeeds, and the successor state is the input with
the migration flag set. -/
theorem loadAuthData_isSome (st : ManagerState) (q : String)
    (hfind : ∃ r ∈ readProfilesFile st, hasId r q = true)
    (hsec : (secretsGet st.secrets (secretKey q)).isSome = true) :
    ∃ ad, loadAuthData st q = (some ad, setMigratedFlag st) := by
  have hne : 0 < (readProfilesFile st).length := by
    obtain ⟨r, hr, -⟩ := hfind
    exact List.length_pos.mpr (List.ne_nil_of_mem hr)
  have hmig := tryMigrate_of_nonempty st hne
  have hsome : (((readProfilesFile st).insertionSort
      (fun a b => strLe (nameOf a) (nameOf b))).find? (hasId · q)).isSome = true := by
    rw [List.find?_isSome]
    obtain ⟨r, hr, hid⟩ := hfind
    exact ⟨r, ((List.perm_insertionSort _ _).mem_iff).mpr hr, hid⟩
  obtain ⟨prof, hprof⟩ := Option.isSome_iff_exists.mp hsome
  obtain ⟨t, ht⟩ := Option.isSome_iff_exists.mp hsec
  refine ⟨⟨t.idToken, t.accessToken, t.refreshToken, t.accountId,
    strPropOf prof "email", strPropOf prof "planType", t.authJson⟩, ?_⟩
  unfold loadAuthData getProfile listProfiles
  dsimp only
  rw [hmig]
  have hread : readProfilesFile (setMigratedFlag st) = readProfilesFile st := rfl
  rw [hread, hprof]
  dsimp only
  have hsec' : secretsGet (setMigratedFlag st).secrets (secretKey q) = some t := ht
  rw [hsec']

/-- One toggle from `active = p`, `last = q` (both truthy, distinct,
`q` loadable): activates `q` and swaps the last pointer to `p`. -/
theorem toggle_step (st : ManagerState) (now : DateT) (p q : String)
    (hp : p ≠ "") (hq : q ≠ "") (hne : p ≠ q)
    (hA : st.bucket.active = some p) (hL : st.bucket.last = some q)
    (hfind : ∃ r ∈ readProfilesFile st, hasId r q = true)
    (hsec : (secretsGet st.secrets (secretKey q)).isSome = true) :
    ∃ ad, toggleLastProfileId st now =
      (some q,
        { st with
          bucket := ⟨some q, none, some p, none, true⟩
          authDir := syncCodexAuthFile st.authDir "auth.json" ad now st.pid none
          lastSyncedProfileId := some q }) := by
  obtain ⟨ad, hload⟩ := loadAuthData_isSome st q hfind hsec
  refine ⟨ad, ?_⟩
  unfold toggleLastProfileId
  rw [getActive_truthy st p hA hp]
  dsimp only
  rw [getLast_truthy st q hL hq]
  dsimp only
  rw [if_neg hq]
  unfold setActiveProfileId
  dsimp only
  rw [if_pos hq, hload]
  dsimp only
  rw [hA]
  have hjs : jsOr (some p) st.bucket.oldActive = some p := by
    simp [jsOr, optStrTruthy, hp]
  rw [hjs]
  have hcond : (optStrTruthy (some p) && (some p != some q)) = true := by
    simp [optStrTruthy, hp, hne]
  rw [if_pos hcond]
  dsimp only
  have hok : (true && optStrTruthy (some p)) = true := by
    simp [optStrTruthy, hp]
  rw [if_pos hok]
  rfl

/-- One toggle with no active pointer at all and `last = q` (truthy,
loadable): activates `q`, leaves the last pointer at `q`, performs no
swap. -/
theorem toggle_step_noactive (st : ManagerState) (now : DateT) (q : String)
    (hq : q ≠ "")
    (hA : st.bucket.active = none) (hOA : st.bucket.oldActive = none)
    (hL : st.bucket.last = some q)
    (hfind : ∃ r ∈ readProfilesFile st, hasId r q = true)
    (hsec : (secretsGet st.secrets (secretKey q)).isSome = true) :
    ∃ ad, toggleLastProfileId st now =
      (some q,
        { st with
          bucket := ⟨some q, none, some q, st.bucket.oldLast, true⟩
          authDir := syncCodexAuthFile st.authDir "auth.json" ad now st.pid none
          lastSyncedProfileId := some q }) := by
  obtain ⟨ad, hload⟩ := loadAuthData_isSome st q hfind hsec
  refine ⟨ad, ?_⟩
  unfold toggleLastProfileId
  rw [getActive_all_falsy st hA hOA]
  dsimp only
  rw [getLast_truthy st q hL hq]
  dsimp only
  rw [if_neg hq]
  unfold setActiveProfileId
  dsimp only
  rw [if_pos hq, hload]
  dsimp only
  rw [hA, hOA]
  have hjs : jsOr none none = (none : Option String) := rfl
  rw [hjs]
  have hcond : (optStrTruthy (none : Option String) && ((none : Option String) != some q))
      = false := by
    simp [optStrTruthy]
  rw [hcond]
  simp only [Bool.false_eq_true, if_false]
  have hok : (true && optStrTruthy (none : Option String)) = false := by
    simp [optStrTruthy]
  rw [hok]
  simp only [Bool.false_eq_true, if_false, if_true]
  have h2 : (setMigratedFlag st).bucket.last = some q := hL
  rw [h2]
  rfl

/-- One toggle from `active = q`, `last = q` (same truthy id, loadable):
re-activates `q`; the last pointer ends at `q` again. -/
theorem toggle_step_self (st : ManagerState) (now : DateT) (q : String)
    (hq : q ≠ "")
    (hA : st.bucket.active = some q) (hL : st.bucket.last = some q)
    (hfind : ∃ r ∈ readProfilesFile st, hasId r q = true)
    (hsec : (secretsGet st.secrets (secretKey q)).isSome = true) :
    ∃ ad, toggleLastProfileId st now =
      (some q,
        { st with
          bucket := ⟨some q, none, some q, none, true⟩
          authDir := syncCodexAuthFile st.authDir "auth.json" ad now st.pid none
          lastSyncedProfileId := some q }) := by
  obtain ⟨ad, hload⟩ := loadAuthData_isSome st q hfind hsec
  refine ⟨ad, ?_⟩
  unfold toggleLastProfileId
  rw [getActive_truthy st q hA hq]
  dsimp only
  rw [getLast_truthy st q hL hq]
  dsimp only
  rw [if_neg hq]
  unfold setActiveProfileId
  dsimp only
  rw [if_pos hq, hload]
  dsimp only
  rw [hA]
  have hjs : jsOr (some q) st.bucket.oldActive = some q := by
    simp [jsOr, optStrTruthy, hq]
  rw [hjs]
  have hcond : (optStrTruthy (some q) && (some q != some q)) = false := by
    simp
  rw [hcond]
  simp only [Bool.false_eq_true, if_false]
  have hok : (true && optStrTruthy (some q)) = true := by
    simp [optStrTruthy, hq]
  rw [if_pos hok]
  rfl

/-- Claim C5: for distinct profiles `p1`, `p2` that are both stored with
tokens, starting from `active = p1` and `last = p2`, one
`toggleLastProfileId` yields `active = p2`, `last = p1`, and a second
toggle yields `active = p1`, `last = p2` again — the double toggle is the
identity on the (active, last) pointer pair. -/
theorem toggle_toggle_identity (st : ManagerState) (now1 now2 : DateT)
    (p1 p2 : String) (hp1 : p1 ≠ "") (hp2 : p2 ≠ "") (hne : p1 ≠ p2)
    (hA : st.bucket.active = some p1) (hL : st.bucket.last = some p2)
    (hq1 : ∃ r ∈ readProfilesFile st, hasId r p1 = true)
    (hq2 : ∃ r ∈ readProfilesFile st, hasId r p2 = true)
    (hs1 : (secretsGet st.secrets (secretKey p1)).isSome = true)
    (hs2 : (secretsGet st.secrets (secretKey p2)).isSome = true) :
    (toggleLastProfileId st now1).1 = some p2 ∧
    (toggleLastProfileId st now1).2.bucket.active = some p2 ∧
    (toggleLastProfileId st now1).2.bucket.last = some p1 ∧
    (toggleLastProfileId (toggleLastProfileId st now1).2 now2).1 = some p1 ∧
    (toggleLastProfileId (toggleLastProfileId st now1).2 now2).2.bucket.active
      = some p1 ∧
    (toggleLastProfileId (toggleLastProfileId st now1).2 now2).2.bucket.last
      = some p2 := by
  obtain ⟨ad1, h1⟩ := toggle_step st now1 p1 p2 hp1 hp2 hne hA hL hq2 hs2
  obtain ⟨ad2, h2⟩ := toggle_step
    { st with
      bucket := ⟨some p2, none, some p1, none, true⟩
      authDir := syncCodexAuthFile st.authDir "auth.json" ad1 now1 st.pid none
      lastSyncedProfileId := some p2 } now2 p2 p1 hp2 hp1 (Ne.symm hne) rfl rfl
    hq1 hs1
  rw [h1]
  dsimp only
  rw [h2]
  exact ⟨rfl, rfl, rfl, rfl, rfl, rfl⟩

/-- Concrete instance of claim C5's theorem: toggling between stored
profiles `a` (active) and `b` (last) twice restores the pointer pair. -/
theorem toggle_toggle_identity_witness :
    (toggleLastProfileId
        ⟨toggleWitRegistry, toggleWitSecrets, ⟨some "a", none, some "b", none, true⟩,
          none, "cur", [], none, 1⟩ ⟨2024, 0, 1, 0, 0, 0, 0⟩).1 = some "b" ∧
    (toggleLastProfileId
        ⟨toggleWitRegistry, toggleWitSecrets, ⟨some "a", none, some "b", none, true⟩,
          none, "cur", [], none, 1⟩ ⟨2024, 0, 1, 0, 0, 0, 0⟩).2.bucket.active
      = some "b" ∧
    (toggleLastProfileId
        ⟨toggleWitRegistry, toggleWitSecrets, ⟨some "a", none, some "b", none, true⟩,
          none, "cur", [], none, 1⟩ ⟨2024, 0, 1, 0, 0, 0, 0⟩).2.bucket.last
      = some "a" ∧
    (toggleLastProfileId
        (toggleLastProfileId
          ⟨toggleWitRegistry, toggleWitSecrets, ⟨some "a", none, some "b", none, true⟩,
            none, "cur", [], none, 1⟩ ⟨2024, 0, 1, 0, 0, 0, 0⟩).2
        ⟨2024, 0, 1, 0, 0, 1, 1000⟩).1 = some "a" ∧
    (toggleLastProfileId
        (toggleLastProfileId
          ⟨toggleWitRegistry, toggleWitSecrets, ⟨some "a", none, some "b", none, true⟩,
            none, "cur", [], none, 1⟩ ⟨2024, 0, 1, 0, 0, 0, 0⟩).2
        ⟨2024, 0, 1, 0, 0, 1, 1000⟩).2.bucket.active = some "a" ∧
    (toggleLastProfileId
        (toggleLastProfileId
          ⟨toggleWitRegistry, toggleWitSecrets, ⟨some "a", none, some "b", none, true⟩,
            none, "cur", [], none, 1⟩ ⟨2024, 0, 1, 0, 0, 0, 0⟩).2
        ⟨2024, 0, 1, 0, 0, 1, 1000⟩).2.bucket.last = some "b" :=
  toggle_toggle_identity
    ⟨toggleWitRegistry, toggleWitSecrets, ⟨some "a", none, some "b", none, true⟩,
      none, "cur", [], none, 1⟩
    ⟨2024, 0, 1, 0, 0, 0, 0⟩ ⟨2024, 0, 1, 0, 0, 1, 1000⟩ "a" "b"
    (by decide) (by decide) (by decide) rfl rfl
    ⟨encodeProfile ⟨"a", "A", "ea", "pro", none, "c", "u"⟩,
      List.mem_cons_self _ _, rfl⟩
    ⟨encodeProfile ⟨"b", "B", "eb", "pro", none, "c", "u"⟩,
      List.mem_cons_of_mem _ (List.mem_cons_self _ _), rfl⟩
    rfl rfl

/-- Claim C10: with `last = p` (stored, loadable) and no active profile
set, `toggleLastProfileId` succeeds, sets `active = p` and leaves
`lastProfileId` equal to `p` (no swap happened, since there was no
previous active id); a second toggle again succeeds and re-activates `p`
— it does not restore the no-active state. -/
theorem toggle_from_no_active (st : ManagerState) (now1 now2 : DateT)
    (p : String) (hp : p ≠ "")
    (hA : st.bucket.active = none) (hOA : st.bucket.oldActive = none)
    (hL : st.bucket.last = some p)
    (hq : ∃ r ∈ readProfilesFile st, hasId r p = true)
    (hs : (secretsGet st.secrets (secretKey p)).isSome = true) :
    (toggleLastProfileId st now1).1 = some p ∧
    (toggleLastProfileId st now1).2.bucket.active = some p ∧
    (toggleLastProfileId st now1).2.bucket.last = some p ∧
    (toggleLastProfileId (toggleLastProfileId st now1).2 now2).1 = some p ∧
    (toggleLastProfileId (toggleLastProfileId st now1).2 now2).2.bucket.active
      = some p ∧
    (toggleLastProfileId (toggleLastProfileId st now1).2 now2).2.bucket.last
      = some p := by
  obtain ⟨ad1, h1⟩ := toggle_step_noactive st now1 p hp hA hOA hL hq hs
  obtain ⟨ad2, h2⟩ := toggle_step_self
    { st with
      bucket := ⟨some p, none, some p, st.bucket.oldLast, true⟩
      authDir := syncCodexAuthFile st.authDir "auth.json" ad1 now1 st.pid none
      lastSyncedProfileId := some p } now2 p hp rfl rfl hq hs
  rw [h1]
  dsimp only
  rw [h2]
  exact ⟨rfl, rfl, rfl, rfl, rfl, rfl⟩

/-- Concrete instance of claim C10's theorem: profile `b` as the last
pointer with no active profile; both toggles activate `b`. -/
theorem toggle_from_no_active_witness :
    (toggleLastProfileId
        ⟨toggleWitRegistry, toggleWitSecrets, ⟨none, none, some "b", none, true⟩,
          none, "cur", [], none, 1⟩ ⟨2024, 0, 2, 0, 0, 0, 0⟩).1 = some "b" ∧
    (toggleLastProfileId
        ⟨toggleWitRegistry, toggleWitSecrets, ⟨none, none, some "b", none, true⟩,
          none, "cur", [], none, 1⟩ ⟨2024, 0, 2, 0, 0, 0, 0⟩).2.bucket.active
      = some "b" ∧
    (toggleLastProfileId
        ⟨toggleWitRegistry, toggleWitSecrets, ⟨none, none, some "b", none, true⟩,
          none, "cur", [], none, 1⟩ ⟨2024, 0, 2, 0, 0, 0, 0⟩).2.bucket.last
      = some "b" ∧
    (toggleLastProfileId
        (toggleLastProfileId
          ⟨toggleWitRegistry, toggleWitSecrets, ⟨none, none, some "b", none, true⟩,
            none, "cur", [], none, 1⟩ ⟨2024, 0, 2, 0, 0, 0, 0⟩).2
        ⟨2024, 0, 2, 0, 0, 1, 1000⟩).1 = some "b" ∧
    (toggleLastProfileId
        (toggleLastProfileId
          ⟨toggleWitRegistry, toggleWitSecrets, ⟨none, none, some "b", none, true⟩,
            none, "cur", [], none, 1⟩ ⟨2024, 0, 2, 0, 0, 0, 0⟩).2
        ⟨2024, 0, 2, 0, 0, 1, 1000⟩).2.bucket.active = some "b" ∧
    (toggleLastProfileId
        (toggleLastProfileId
          ⟨toggleWitRegistry, toggleWitSecrets, ⟨none, none, some "b", none, true⟩,
            none, "cur", [], none, 1⟩ ⟨2024, 0, 2, 0, 0, 0, 0⟩).2
        ⟨2024, 0, 2, 0, 0, 1, 1000⟩).2.bucket.last = some "b" :=
  toggle_from_no_active
    ⟨toggleWitRegistry, toggleWitSecrets, ⟨none, none, some "b", none, true⟩,
      none, "cur", [], none, 1⟩
    ⟨2024, 0, 2, 0, 0, 0, 0⟩ ⟨2024, 0, 2, 0, 0, 1, 1000⟩ "b"
    (by decide) rfl rfl rfl
    ⟨encodeProfile ⟨"b", "B", "eb", "pro", none, "c", "u"⟩,
      List.mem_cons_of_mem _ (List.mem_cons_self _ _), rfl⟩
    rfl

/-! ## Claim C7: delete cascades -/

theorem secretsGet_delete_self (secrets : List (String × ProfileTokens)) (k : String) :
    secretsGet (secretsDelete secrets k) k = none := by
  induction secrets with
  | nil => rfl
  | cons e rest ih =>
    obtain ⟨k', v⟩ := e
    by_cases h : k' = k
    · simpa [secretsDelete, h] using ih
    · simpa [secretsDelete, secretsGet, h] using ih

theorem secretsGet_delete_ne (secrets : List (String × ProfileTokens))
    (k k' : String) (h : k' ≠ k) :
    secretsGet (secretsDelete secrets k) k' = secretsGet secrets k' := by
  induction secrets with
  | nil => rfl
  | cons e rest ih =>
    obtain ⟨k₀, v⟩ := e
    by_cases h₀ : k₀ = k
    · subst h₀
      have hstep : secretsDelete ((k₀, v) :: rest) k₀ = secretsDelete rest k₀ := by
        simp [secretsDelete]
      rw [hstep, ih]
      have hne : ¬ k₀ = k' := fun hh => h hh.symm
      show _ = if k₀ = k' then some v else secretsGet rest k'
      rw [if_neg hne]
    · have hstep : secretsDelete ((k₀, v) :: rest) k = (k₀, v) :: secretsDelete rest k := by
        simp [secretsDelete, h₀]
      rw [hstep]
      show (if k₀ = k' then some v else secretsGet (secretsDelete rest k) k')
        = if k₀ = k' then some v else secretsGet rest k'
      by_cases h₁ : k₀ = k'
      · rw [if_pos h₁, if_pos h₁]
      · rw [if_neg h₁, if_neg h₁, ih]

/-- Lazy-migration of the active pointer never touches the last-pointer
keys or the migration flag. -/
theorem getActiveB_frame (b : Bucket) :
    (getActiveB b).2.last = b.last ∧ (getActiveB b).2.oldLast = b.oldLast ∧
    (getActiveB b).2.migratedLegacy = b.migratedLegacy := by
  unfold getActiveB
  split
  · exact ⟨rfl, rfl, rfl⟩
  · dsimp only
    split
    · exact ⟨rfl, rfl, rfl⟩
    · exact ⟨rfl, rfl, rfl⟩

/-- The last pointer read only depends on the last-pointer keys. -/
theorem getLastB_val_congr (b b' : Bucket) (h1 : b.last = b'.last)
    (h2 : b.oldLast = b'.oldLast) : (getLastB b).1 = (getLastB b').1 := by
  unfold getLastB
  rw [h1, h2]
  by_cases hc : optStrTruthy b'.last = true
  · rw [if_pos hc, if_pos hc]
  · rw [if_neg hc, if_neg hc]
    dsimp only
    by_cases hc2 : optStrTruthy (jsOr b'.oldLast b'.oldLast) = true
    · rw [if_pos hc2, if_pos hc2]
    · rw [if_neg hc2, if_neg hc2]

/-- The two secret keys of one profile id differ (their prefixes have
different lengths). -/
theorem secretKey_ne_legacy (profileId : String) :
    secretKey profileId ≠ legacySecretKey profileId := by
  intro hkey
  have hlen := congrArg String.length hkey
  unfold secretKey legacySecretKey at hlen
  rw [String.length_append, String.length_append] at hlen
  have h20 : ("codexSwitch.profile." : String).length = 20 := by decide
  have h19 : ("codexUsage.profile." : String).length = 19 := by decide
  rw [h20, h19] at hlen
  omega

/-- Claim C7: deleting a profile id present in the registry succeeds,
removes exactly its metadata entries, deletes both the current-scheme and
the legacy-scheme secret key (the latter without failing whether or not it
is present — no hypothesis about it is needed), clears the active pointer
when it referenced the deleted id, and clears the last pointer when it
referenced the deleted id. -/
theorem deleteProfile_cascades (st : ManagerState) (now : DateT)
    (profileId : String)
    (hq : ∃ r ∈ readProfilesFile st, hasId r profileId = true) :
    (deleteProfile st now profileId).1 = true ∧
    readProfilesFile (deleteProfile st now profileId).2
      = (readProfilesFile st).filter (fun p => !hasId p profileId) ∧
    secretsGet (deleteProfile st now profileId).2.secrets (secretKey profileId)
      = none ∧
    secretsGet (deleteProfile st now profileId).2.secrets (legacySecretKey profileId)
      = none ∧
    ((getActiveB st.bucket).1 = some profileId →
      (deleteProfile st now profileId).2.bucket.active = none ∧
      (deleteProfile st now profileId).2.bucket.oldActive = none) ∧
    ((getLastB st.bucket).1 = some profileId →
      (deleteProfile st now profileId).2.bucket.last = none ∧
      (deleteProfile st now profileId).2.bucket.oldLast = none) := by
  have hlt : ((readProfilesFile st).filter (fun p => !hasId p profileId)).length
      < (readProfilesFile st).length := by
    apply List.length_filter_lt_length_iff_exists.mpr
    obtain ⟨r, hr, hid⟩ := hq
    exact ⟨r, hr, by simp [hid]⟩
  have hlen := Nat.ne_of_lt hlt
  rcases hga : getActiveB st.bucket with ⟨av, ab⟩
  rcases hgl : getLastB ab with ⟨lv, lb⟩
  have hablast : ab.last = st.bucket.last := by
    have h := (getActiveB_frame st.bucket).1
    rw [hga] at h
    exact h
  have haboldlast : ab.oldLast = st.bucket.oldLast := by
    have h := (getActiveB_frame st.bucket).2.1
    rw [hga] at h
    exact h
  have hlv : lv = (getLastB st.bucket).1 := by
    have h := getLastB_val_congr ab st.bucket hablast haboldlast
    rw [hgl] at h
    exact h
  have hkeys := secretKey_ne_legacy profileId
  have hred : deleteProfile st now profileId
      = (true,
        let st2 : ManagerState :=
          { st with
            registryFile := writeProfilesFile
              ((readProfilesFile st).filter (fun p => !hasId p profileId))
            secrets := secretsDelete (secretsDelete st.secrets (secretKey profileId))
              (legacySecretKey profileId) }
        let st4 : ManagerState := { st2 with bucket := lb }
        let st5 : ManagerState :=
          if av == some profileId then
            { st4 with bucket := { st4.bucket with active := none, oldActive := none } }
          else st4
        if lv == some profileId then { st5 with bucket := setLastB st5.bucket none }
        else st5) := by
    unfold deleteProfile
    dsimp only
    rw [if_neg hlen]
    unfold getActiveProfileId getLastProfileId
    dsimp only
    rw [hga]
    dsimp only
    rw [hgl]
    dsimp only
    unfold setActiveProfileId
    dsimp only
  rw [hred]
  dsimp only
  by_cases hc1 : (av == some profileId) = true
  · by_cases hc2 : (lv == some profileId) = true
    · rw [if_pos hc1, if_pos hc2]
      exact ⟨rfl, rfl,
        by rw [secretsGet_delete_ne _ _ _ hkeys, secretsGet_delete_self],
        secretsGet_delete_self _ _,
        fun _ => ⟨rfl, rfl⟩, fun _ => ⟨rfl, rfl⟩⟩
    · rw [if_pos hc1, if_neg hc2]
      refine ⟨rfl, rfl,
        by rw [secretsGet_delete_ne _ _ _ hkeys, secretsGet_delete_self],
        secretsGet_delete_self _ _,
        fun _ => ⟨rfl, rfl⟩, fun hlast => ?_⟩
      exact absurd (by rw [← hlv] at hlast; simp [hlast]) hc2
  · by_cases hc2 : (lv == some profileId) = true
    · rw [if_neg hc1, if_pos hc2]
      refine ⟨rfl, rfl,
        by rw [secretsGet_delete_ne _ _ _ hkeys, secretsGet_delete_self],
        secretsGet_delete_self _ _,
        fun hact => ?_, fun _ => ⟨rfl, rfl⟩⟩
      exact absurd (by simp [hact]) hc1
    · rw [if_neg hc1, if_neg hc2]
      refine ⟨rfl, rfl,
        by rw [secretsGet_delete_ne _ _ _ hkeys, secretsGet_delete_self],
        secretsGet_delete_self _ _,
        fun hact => ?_, fun hlast => ?_⟩
      · exact absurd (by simp [hact]) hc1
      · exact absurd (by rw [← hlv] at hlast; simp [hlast]) hc2

/-- Concrete instance of claim C7's theorem: deleting profile `a`, which
is both the active and the last profile and has only a current-scheme
secret (no legacy key — the operation still succeeds), removes its entry,
leaves no secret under either key, and clears both pointers. -/
theorem deleteProfile_cascades_witness :
    (deleteProfile
        ⟨toggleWitRegistry, toggleWitSecrets, ⟨some "a", none, some "a", none, true⟩,
          none, "cur", [], none, 1⟩ ⟨2024, 0, 3, 0, 0, 0, 0⟩ "a").1 = true ∧
    readProfilesFile
        (deleteProfile
          ⟨toggleWitRegistry, toggleWitSecrets, ⟨some "a", none, some "a", none, true⟩,
            none, "cur", [], none, 1⟩ ⟨2024, 0, 3, 0, 0, 0, 0⟩ "a").2
      = (readProfilesFile
          ⟨toggleWitRegistry, toggleWitSecrets, ⟨some "a", none, some "a", none, true⟩,
            none, "cur", [], none, 1⟩).filter (fun p => !hasId p "a") ∧
    secretsGet
        (deleteProfile
          ⟨toggleWitRegistry, toggleWitSecrets, ⟨some "a", none, some "a", none, true⟩,
            none, "cur", [], none, 1⟩ ⟨2024, 0, 3, 0, 0, 0, 0⟩ "a").2.secrets
        (secretKey "a") = none ∧
    secretsGet
        (deleteProfile
          ⟨toggleWitRegistry, toggleWitSecrets, ⟨some "a", none, some "a", none, true⟩,
            none, "cur", [], none, 1⟩ ⟨2024, 0, 3, 0, 0, 0, 0⟩ "a").2.secrets
        (legacySecretKey "a") = none ∧
    (deleteProfile
        ⟨toggleWitRegistry, toggleWitSecrets, ⟨some "a", none, some "a", none, true⟩,
          none, "cur", [], none, 1⟩ ⟨2024, 0, 3, 0, 0, 0, 0⟩ "a").2.bucket.active
      = none ∧
    (deleteProfile
        ⟨toggleWitRegistry, toggleWitSecrets, ⟨some "a", none, some "a", none, true⟩,
          none, "cur", [], none, 1⟩ ⟨2024, 0, 3, 0, 0, 0, 0⟩ "a").2.bucket.last
      = none := by
  have h := deleteProfile_cascades
    ⟨toggleWitRegistry, toggleWitSecrets, ⟨some "a", none, some "a", none, true⟩,
      none, "cur", [], none, 1⟩ ⟨2024, 0, 3, 0, 0, 0, 0⟩ "a"
    ⟨encodeProfile ⟨"a", "A", "ea", "pro", none, "c", "u"⟩,
      List.mem_cons_self _ _, rfl⟩
  exact ⟨h.1, h.2.1, h.2.2.1, h.2.2.2.1, (h.2.2.2.2.1 rfl).1, (h.2.2.2.2.2 rfl).1⟩

/-! ## Claim C9: legacy migration prefers the newer naming scheme -/

/-- In a list sorted by `legacyRank`, if some rank-0 (codex-switch) name
is adoptable, then the first adoptable name found has rank 0. -/
theorem find_first_rank_zero (entries : List (String × RegFile)) :
    ∀ (l : List String), l.Sorted (fun a b => legacyRank a ≤ legacyRank b) →
      ∀ n ∈ l, legacyRank n = 0 → adoptableIn entries n = true →
        ∃ d, l.find? (adoptableIn entries) = some d ∧ legacyRank d = 0 := by
  intro l
  induction l with
  | nil =>
    intro _ n hn
    exact absurd hn (List.not_mem_nil n)
  | cons hd tl ih =>
    intro hsort n hn hrank hadopt
    rcases hcase : adoptableIn entries hd with - | -
    · have hn' : n ∈ tl := by
        rcases List.mem_cons.mp hn with h1 | h1
        · subst h1
          rw [hcase] at hadopt
          exact absurd hadopt (by simp)
        · exact h1
      obtain ⟨d, hfind, hdr⟩ :=
        ih (List.sorted_cons.mp hsort).2 n hn' hrank hadopt
      refine ⟨d, ?_, hdr⟩
      rw [List.find?_cons_of_neg _ (by simp [hcase]), hfind]
    · refine ⟨hd, List.find?_cons_of_pos _ hcase, ?_⟩
      rcases List.mem_cons.mp hn with h1 | h1
      · rw [← h1, hrank]
      · have hle := (List.sorted_cons.mp hsort).1 n h1
        omega

/-- Claim C9: with an empty registry, migration not yet run, and sibling
legacy directories among which both a `codex-stats`-named and a
`codex-switch`-named candidate hold non-empty readable registries, the
one-time migration adopts the profiles of a directory whose (lower-cased)
name contains `codex-switch` — i.e. `legacyRank d = 0` — in preference to
the `codex-stats` candidate, and sets the one-time flag. -/
theorem migration_prefers_codex_switch (st : ManagerState)
    (entries : List (String × RegFile))
    (hflag : st.bucket.migratedLegacy = false)
    (hempty : readProfilesFile st = [])
    (hroot : st.legacyRoot = some entries)
    (_hstats : ∃ m ∈ (entries.map Prod.fst).filter (fun n =>
        n ≠ st.currentDirName &&
          (jsEndsWith n ".codex-switch" || jsEndsWith n ".codex-stats")),
      legacyRank m = 1 ∧ adoptableIn entries m = true)
    (hswitch : ∃ n ∈ (entries.map Prod.fst).filter (fun n =>
        n ≠ st.currentDirName &&
          (jsEndsWith n ".codex-switch" || jsEndsWith n ".codex-stats")),
      legacyRank n = 0 ∧ adoptableIn entries n = true) :
    ∃ d, legacyRank d = 0 ∧ adoptableIn entries d = true ∧
      (tryMigrateLegacyProfilesOnce st).registryFile
        = writeProfilesFile (profilesOfEntry entries d) ∧
      (tryMigrateLegacyProfilesOnce st).bucket.migratedLegacy = true := by
  clear _hstats
  unfold tryMigrateLegacyProfilesOnce
  have h1 : ¬ (st.bucket.migratedLegacy = true) := by
    rw [hflag]
    exact Bool.false_ne_true
  rw [if_neg h1]
  have h2 : ¬ (0 < (readProfilesFile st).length) := by
    rw [hempty]
    simp
  rw [if_neg h2, hroot]
  dsimp only
  haveI : IsTotal String (fun a b => legacyRank a ≤ legacyRank b) :=
    ⟨fun a b => Nat.le_total _ _⟩
  haveI : IsTrans String (fun a b => legacyRank a ≤ legacyRank b) :=
    ⟨fun _ _ _ hab hbc => Nat.le_trans hab hbc⟩
  have hsorted := List.sorted_insertionSort
    (fun a b => legacyRank a ≤ legacyRank b)
    ((entries.map Prod.fst).filter (fun n =>
      n ≠ st.currentDirName &&
        (jsEndsWith n ".codex-switch" || jsEndsWith n ".codex-stats")))
  obtain ⟨n, hnmem, hnrank, hnadopt⟩ := hswitch
  have hnmem' : n ∈ ((entries.map Prod.fst).filter (fun n =>
      n ≠ st.currentDirName &&
        (jsEndsWith n ".codex-switch" || jsEndsWith n ".codex-stats"))).insertionSort
      (fun a b => legacyRank a ≤ legacyRank b) :=
    ((List.perm_insertionSort _ _).mem_iff).mpr hnmem
  obtain ⟨d, hfind, hdrank⟩ :=
    find_first_rank_zero entries _ hsorted n hnmem' hnrank hnadopt
  have hdadopt : adoptableIn entries d = true := List.find?_some hfind
  rw [hfind]
  exact ⟨d, hdrank, hdadopt, rfl, rfl⟩

/-- Concrete instance of claim C9's theorem: with both legacy candidates
non-empty, migration adopts from the `codex-switch` directory. -/
theorem migration_prefers_codex_switch_witness :
    ∃ d, legacyRank d = 0 ∧ adoptableIn c9Entries d = true ∧
      (tryMigrateLegacyProfilesOnce
          ⟨.missing, [], ⟨none, none, none, none, false⟩, some c9Entries, "cur",
            [], none, 1⟩).registryFile
        = writeProfilesFile (profilesOfEntry c9Entries d) ∧
      (tryMigrateLegacyProfilesOnce
          ⟨.missing, [], ⟨none, none, none, none, false⟩, some c9Entries, "cur",
            [], none, 1⟩).bucket.migratedLegacy = true :=
  migration_prefers_codex_switch
    ⟨.missing, [], ⟨none, none, none, none, false⟩, some c9Entries, "cur", [], none, 1⟩
    c9Entries rfl rfl rfl
    ⟨"pub.codex-stats", by decide, by decide, by decide⟩
    ⟨"pub.codex-switch", by decide, by decide, by decide⟩

/-! ## Claim C6: backup retention -/

theorem strLt_append_left (p a b : String) (h : a < b) : p ++ a < p ++ b := by
  rw [String.lt_iff_toList_lt] at h ⊢
  have hp : (p ++ a).toList = p.toList ++ a.toList := String.data_append p a
  have hq : (p ++ b).toList = p.toList ++ b.toList := String.data_append p b
  rw [hp, hq]
  exact List.Lex.append_left _ h p.toList

theorem base_ne_bakName (base s : String) : base ≠ base ++ ".bak." ++ s := by
  intro h
  have hlen := congrArg String.length h
  rw [String.length_append, String.length_append] at hlen
  have h5 : (".bak." : String).length = 5 := by decide
  rw [h5] at hlen
  omega

theorem startsWith_bakPrefix (base s : String) :
    jsStartsWith (base ++ ".bak." ++ s) (base ++ ".bak.") = true := by
  unfold jsStartsWith
  rw [List.isPrefixOf_iff_prefix]
  exact ⟨s.data, (String.data_append _ _).symm⟩

theorem base_not_startsWith_bakPrefix (base : String) :
    jsStartsWith base (base ++ ".bak.") = false := by
  unfold jsStartsWith
  by_contra h
  have h' : (base ++ ".bak.").data.isPrefixOf base.data = true := by
    cases hb : (base ++ ".bak.").data.isPrefixOf base.data
    · exact absurd hb h
    · rfl
  have hle := (List.isPrefixOf_iff_prefix.mp h').length_le
  have heq : (base ++ ".bak.").data.length = (base ++ ".bak.").length := rfl
  have heq2 : base.data.length = base.length := rfl
  rw [heq, heq2, String.length_append] at hle
  have h5 : (".bak." : String).length = 5 := by decide
  rw [h5] at hle
  omega

theorem bakName_inj (base s₁ s₂ : String)
    (h : base ++ ".bak." ++ s₁ = base ++ ".bak." ++ s₂) : s₁ = s₂ := by
  have hd := congrArg String.data h
  rw [String.data_append, String.data_append] at hd
  have := List.append_cancel_left hd
  exact String.ext this

theorem jlookup_append_of_ne (L M : List (String × Json)) (n : String)
    (h : ∀ e ∈ L, e.1 ≠ n) : jlookup (L ++ M) n = jlookup M n := by
  induction L with
  | nil => rfl
  | cons e rest ih =>
    obtain ⟨k, v⟩ := e
    have hk : k ≠ n := h (k, v) (List.mem_cons_self _ _)
    show (if k = n then some v else jlookup (rest ++ M) n) = _
    rw [if_neg hk, ih (fun e he => h e (List.mem_cons_of_mem _ he))]

theorem dirSet_fresh (d : Dir) (n : String) (c : Json)
    (h : ∀ e ∈ d, e.1 ≠ n) : dirSet d n c = (n, c) :: d := by
  unfold dirSet
  rw [if_neg ?_]
  intro hany
  rcases List.any_eq_true.mp hany with ⟨x, hx, hxn⟩
  exact h x hx (by simpa using hxn)

theorem dirSet_update_last (L : Dir) (base : String) (c' c : Json)
    (h : ∀ e ∈ L, e.1 ≠ base) :
    dirSet (L ++ [(base, c')]) base c = L ++ [(base, c)] := by
  unfold dirSet
  rw [if_pos (List.any_eq_true.mpr ⟨(base, c'), by simp, by simp⟩)]
  rw [List.map_append]
  congr 1
  · have hcong : ∀ e ∈ L, (if (e : String × Json).1 = base then (base, c) else e)
        = id e := by
      intro e he
      rw [if_neg (h e he)]
      rfl
    rw [List.map_congr_left hcong, List.map_id]
  · simp

theorem dirRemove_head_fresh (d : Dir) (n : String) (c : Json)
    (h : ∀ e ∈ d, e.1 ≠ n) : dirRemove ((n, c) :: d) n = d := by
  unfold dirRemove
  rw [List.filter_cons]
  rw [show (decide (((n, c) : String × Json).1 ≠ n)) = false from by simp]
  simp only [Bool.false_eq_true, if_false]
  exact List.filter_eq_self.mpr fun e he => by simpa using h e he


theorem filter_not_in_drop (D : Dir) (R : Nat)
    (hnodup : (D.map Prod.fst).Nodup) :
    D.filter (fun e => decide ¬(((D.map Prod.fst).drop R).contains e.1 = true))
      = D.take R := by
  have hdropmap : (D.map Prod.fst).drop R = (D.drop R).map Prod.fst :=
    (List.map_drop _ _ _).symm
  have hdisj : List.Disjoint ((D.take R).map Prod.fst) ((D.drop R).map Prod.fst) := by
    apply List.disjoint_of_nodup_append
    rw [← List.map_append, List.take_append_drop]
    exact hnodup
  have h1 : (D.take R).filter
      (fun e => decide ¬(((D.map Prod.fst).drop R).contains e.1 = true)) = D.take R := by
    apply List.filter_eq_self.mpr
    intro e he
    rw [hdropmap]
    simp only [decide_eq_true_eq, List.contains, List.elem_iff]
    intro hmem
    exact hdisj (List.mem_map_of_mem _ he) hmem
  have h2 : (D.drop R).filter
      (fun e => decide ¬(((D.map Prod.fst).drop R).contains e.1 = true)) = [] := by
    apply List.filter_eq_nil_iff.mpr
    intro e he
    rw [hdropmap]
    simp only [decide_eq_true_eq, List.contains, List.elem_iff, not_not]
    exact List.mem_map_of_mem _ he
  have hsplit : D.filter
      (fun e => decide ¬(((D.map Prod.fst).drop R).contains e.1 = true))
      = (D.take R ++ D.drop R).filter
        (fun e => decide ¬(((D.map Prod.fst).drop R).contains e.1 = true)) := by
    rw [List.take_append_drop]
  rw [hsplit, List.filter_append, h1, h2, List.append_nil]

theorem prune_filter_split (C : Dir) (extra : String × Json) (R : Nat)
    (hnodup : (C.map Prod.fst).Nodup)
    (hextra : extra.1 ∉ C.map Prod.fst) :
    (C ++ [extra]).filter
        (fun e => decide ¬(((C.map Prod.fst).drop R).contains e.1 = true))
      = C.take R ++ [extra] := by
  rw [List.filter_append, filter_not_in_drop C R hnodup]
  congr 1
  have hkeep : (decide ¬(((C.map Prod.fst).drop R).contains extra.1 = true)) = true := by
    simp only [decide_eq_true_eq, List.contains, List.elem_iff]
    intro hmem
    exact hextra (List.mem_of_mem_drop hmem)
  rw [List.filter_cons, hkeep]
  rfl

theorem strLe_of_lt (x y : String) (h : y < x) : strLe y x := by
  have h' := String.lt_iff_toList_lt.mp h
  exact le_of_lt h'

/-- One `syncCodexAuthFile` on a directory holding the target file and a
strictly-descending list of backups: the old target content becomes the
newest backup, the backups are pruned to the newest `R`, and the target is
replaced by the new content. -/
theorem sync_step (base : String) (a : AuthData) (now : DateT) (pid R : Nat)
    (hR : 0 < R) (B : Dir) (cb : Json) (suffixes : List String)
    (hB : B.map Prod.fst = suffixes.map (fun s => base ++ ".bak." ++ s))
    (hdesc : suffixes.Pairwise (fun x y => y < x))
    (hnew : ∀ s ∈ suffixes, s < backupSuffix now)
    (htmp1 : tmpName pid now ≠ base)
    (htmp2 : jsStartsWith (tmpName pid now) (base ++ ".bak.") = false) :
    syncCodexAuthFile (B ++ [(base, cb)]) base a now pid (some (R : Int))
      = ((base ++ ".bak." ++ backupSuffix now, cb) :: B).take R
        ++ [(base, Json.obj (buildCodexAuthJson a))] := by
  have hBnames : ∀ e ∈ B, ∃ s ∈ suffixes, e.1 = base ++ ".bak." ++ s := by
    intro e he
    have hmem : e.1 ∈ B.map Prod.fst := List.mem_map_of_mem _ he
    rw [hB] at hmem
    rcases List.mem_map.mp hmem with ⟨s, hs, hname⟩
    exact ⟨s, hs, hname.symm⟩
  have hBne_base : ∀ e ∈ B, e.1 ≠ base := by
    intro e he
    rcases hBnames e he with ⟨s, -, hname⟩
    rw [hname]
    exact (base_ne_bakName base s).symm
  have hget : dirGet (B ++ [(base, cb)]) base = some cb := by
    unfold dirGet
    rw [jlookup_append_of_ne _ _ _ hBne_base]
    show (if base = base then some cb else none) = some cb
    rw [if_pos rfl]
  have hfreshnew : ∀ e ∈ B ++ [(base, cb)],
      e.1 ≠ base ++ ".bak." ++ backupSuffix now := by
    intro e he
    rcases List.mem_append.mp he with h1 | h1
    · rcases hBnames e h1 with ⟨s, hs, hname⟩
      rw [hname]
      intro heq
      have hss := bakName_inj _ _ _ heq
      have := hnew s hs
      rw [hss] at this
      exact absurd this (lt_irrefl _)
    · rw [List.mem_singleton.mp h1]
      exact base_ne_bakName base _
  have hCnames : (((base ++ ".bak." ++ backupSuffix now, cb) :: B).map Prod.fst)
      = (base ++ ".bak." ++ backupSuffix now)
        :: suffixes.map (fun s => base ++ ".bak." ++ s) := by
    simp only [List.map_cons, hB]
  have hCdesc : (((base ++ ".bak." ++ backupSuffix now, cb) :: B).map
      Prod.fst).Pairwise (fun x y => y < x) := by
    rw [hCnames]
    refine List.pairwise_cons.mpr ⟨?_, ?_⟩
    · intro y hy
      rcases List.mem_map.mp hy with ⟨s, hs, rfl⟩
      exact strLt_append_left _ _ _ (hnew s hs)
    · rw [List.pairwise_map]
      exact hdesc.imp (fun h => strLt_append_left _ _ _ h)
  have hCnodup : (((base ++ ".bak." ++ backupSuffix now, cb) :: B).map
      Prod.fst).Nodup :=
    hCdesc.imp (fun h => ne_of_gt h)
  unfold syncCodexAuthFile
  dsimp only
  have hco : coerceMaxBackups (some (R : Int)) 10 = R := by
    simp [coerceMaxBackups]
  rw [hco, if_pos hR, hget]
  dsimp only
  rw [dirSet_fresh _ _ _ hfreshnew]
  unfold pruneAuthBackups
  dsimp only
  have hfB : (B.map Prod.fst).filter (fun n => jsStartsWith n (base ++ ".bak."))
      = B.map Prod.fst := by
    apply List.filter_eq_self.mpr
    intro n hn
    rw [hB] at hn
    rcases List.mem_map.mp hn with ⟨s, -, rfl⟩
    exact startsWith_bakPrefix base s
  have hfilter : ((((base ++ ".bak." ++ backupSuffix now, cb)
        :: (B ++ [(base, cb)])).map Prod.fst).filter
      (fun n => jsStartsWith n (base ++ ".bak.")))
      = ((base ++ ".bak." ++ backupSuffix now, cb) :: B).map Prod.fst := by
    simp only [List.map_cons, List.map_append]
    rw [List.filter_cons]
    rw [startsWith_bakPrefix]
    simp only [if_true]
    rw [List.filter_append, hfB]
    simp [List.filter_cons, base_not_startsWith_bakPrefix]
  rw [hfilter]
  have hsorted : (((base ++ ".bak." ++ backupSuffix now, cb) :: B).map
      Prod.fst).Sorted (fun a b => strLe b a) :=
    hCdesc.imp (fun h => strLe_of_lt _ _ h)
  rw [List.Sorted.insertionSort_eq hsorted]
  have hextra : ((base, cb) : String × Json).1
      ∉ ((base ++ ".bak." ++ backupSuffix now, cb) :: B).map Prod.fst := by
    rw [hCnames]
    intro hmem
    rcases List.mem_cons.mp hmem with h1 | h1
    · exact base_ne_bakName base _ h1
    · rcases List.mem_map.mp h1 with ⟨s, -, hname⟩
      exact base_ne_bakName base s hname.symm
  have happ := prune_filter_split ((base ++ ".bak." ++ backupSuffix now, cb) :: B)
    (base, cb) R hCnodup hextra
  rw [← List.cons_append, happ]
  have htake_bak : ∀ e ∈ (((base ++ ".bak." ++ backupSuffix now, cb) :: B).take R),
      ∃ s', e.1 = base ++ ".bak." ++ s' := by
    intro e he
    have h2 := List.mem_of_mem_take he
    rcases List.mem_cons.mp h2 with h3 | h3
    · exact ⟨backupSuffix now, by rw [h3]⟩
    · rcases hBnames e h3 with ⟨s, -, hname⟩
      exact ⟨s, hname⟩
  have htmpfresh : ∀ e ∈ ((((base ++ ".bak." ++ backupSuffix now, cb) :: B).take R)
      ++ [(base, cb)]), e.1 ≠ tmpName pid now := by
    intro e he
    rcases List.mem_append.mp he with h1 | h1
    · rcases htake_bak e h1 with ⟨s', hname⟩
      rw [hname]
      intro heq
      rw [← heq] at htmp2
      rw [startsWith_bakPrefix] at htmp2
      exact Bool.noConfusion htmp2
    · rw [List.mem_singleton.mp h1]
      exact fun hh => htmp1 hh.symm
  rw [dirSet_fresh _ _ _ htmpfresh, dirRemove_head_fresh _ _ _ htmpfresh]
  have htakene : ∀ e ∈ (((base ++ ".bak." ++ backupSuffix now, cb) :: B).take R),
      e.1 ≠ base := by
    intro e he
    rcases htake_bak e he with ⟨s', hname⟩
    rw [hname]
    exact (base_ne_bakName base s').symm
  rw [dirSet_update_last _ _ _ _ htakene]

theorem syncCodexAuthFile_empty (base : String) (a : AuthData) (now : DateT)
    (pid R : Nat) (hR : 0 < R) :
    syncCodexAuthFile [] base a now pid (some (R : Int))
      = [(base, Json.obj (buildCodexAuthJson a))] := by
  unfold syncCodexAuthFile
  dsimp only
  have hco : coerceMaxBackups (some (R : Int)) 10 = R := by
    simp [coerceMaxBackups]
  rw [hco, if_pos hR]
  have hget : dirGet [] base = none := rfl
  rw [hget]
  dsimp only
  have hprune : pruneAuthBackups [] base R = [] := rfl
  rw [hprune]
  have h1 : dirSet [] (tmpName pid now) (Json.obj (buildCodexAuthJson a))
      = [(tmpName pid now, Json.obj (buildCodexAuthJson a))] := rfl
  rw [h1]
  rw [dirRemove_head_fresh [] (tmpName pid now) _
    (fun e he => absurd he (List.not_mem_nil e))]
  rfl

/-- One `syncCodexAuthFile` on a directory holding only backups and no
target file: no backup is created, yet the backups are still pruned to
the newest `R`, and the target is written. -/
theorem sync_step_no_target (base : String) (a : AuthData) (now : DateT)
    (pid R : Nat) (hR : 0 < R) (B : Dir) (suffixes : List String)
    (hB : B.map Prod.fst = suffixes.map (fun s => base ++ ".bak." ++ s))
    (hdesc : suffixes.Pairwise (fun x y => y < x))
    (htmp2 : jsStartsWith (tmpName pid now) (base ++ ".bak.") = false) :
    syncCodexAuthFile B base a now pid (some (R : Int))
      = (base, Json.obj (buildCodexAuthJson a)) :: B.take R := by
  have hBnames : ∀ e ∈ B, ∃ s ∈ suffixes, e.1 = base ++ ".bak." ++ s := by
    intro e he
    have hmem : e.1 ∈ B.map Prod.fst := List.mem_map_of_mem _ he
    rw [hB] at hmem
    rcases List.mem_map.mp hmem with ⟨s, hs, hname⟩
    exact ⟨s, hs, hname.symm⟩
  have hBne_base : ∀ e ∈ B, e.1 ≠ base := by
    intro e he
    rcases hBnames e he with ⟨s, -, hname⟩
    rw [hname]
    exact (base_ne_bakName base s).symm
  have hget : dirGet B base = none := by
    have h := jlookup_append_of_ne B [] base hBne_base
    rw [List.append_nil] at h
    exact h
  have hBdesc : (B.map Prod.fst).Pairwise (fun x y => y < x) := by
    rw [hB, List.pairwise_map]
    exact hdesc.imp (fun h => strLt_append_left _ _ _ h)
  have hBnodup : (B.map Prod.fst).Nodup := hBdesc.imp (fun h => ne_of_gt h)
  unfold syncCodexAuthFile
  dsimp only
  have hco : coerceMaxBackups (some (R : Int)) 10 = R := by
    simp [coerceMaxBackups]
  rw [hco, if_pos hR, hget]
  dsimp only
  unfold pruneAuthBackups
  dsimp only
  have hfB : ((B.map Prod.fst).filter (fun n => jsStartsWith n (base ++ ".bak.")))
      = B.map Prod.fst := by
    apply List.filter_eq_self.mpr
    intro n hn
    rw [hB] at hn
    rcases List.mem_map.mp hn with ⟨s, -, rfl⟩
    exact startsWith_bakPrefix base s
  rw [hfB]
  have hsorted : (B.map Prod.fst).Sorted (fun a b => strLe b a) :=
    hBdesc.imp (fun h => strLe_of_lt _ _ h)
  rw [List.Sorted.insertionSort_eq hsorted]
  rw [filter_not_in_drop B R hBnodup]
  have htake_bak : ∀ e ∈ B.take R, ∃ s', e.1 = base ++ ".bak." ++ s' := by
    intro e he
    rcases hBnames e (List.mem_of_mem_take he) with ⟨s, -, hname⟩
    exact ⟨s, hname⟩
  have htmpfresh : ∀ e ∈ B.take R, e.1 ≠ tmpName pid now := by
    intro e he
    rcases htake_bak e he with ⟨s', hname⟩
    rw [hname]
    intro heq
    rw [← heq] at htmp2
    rw [startsWith_bakPrefix] at htmp2
    exact Bool.noConfusion htmp2
  rw [dirSet_fresh _ _ _ htmpfresh, dirRemove_head_fresh _ _ _ htmpfresh]
  have hbasefresh : ∀ e ∈ B.take R, e.1 ≠ base := by
    intro e he
    rcases htake_bak e he with ⟨s', hname⟩
    rw [hname]
    exact (base_ne_bakName base s').symm
  rw [dirSet_fresh _ _ _ hbasefresh]

theorem take_cons_range'_reverse (k R : Nat) (hk : 1 ≤ k) (hR : 0 < R) :
    (k :: (List.range' (k - min (k - 1) R) (min (k - 1) R)).reverse).take R
      = (List.range' (k + 1 - min k R) (min k R)).reverse := by
  by_cases hcase : k ≤ R
  · have hm : min (k - 1) R = k - 1 := Nat.min_eq_left (by omega)
    have hm' : min k R = k := Nat.min_eq_left hcase
    rw [hm, hm']
    have hs : k - (k - 1) = 1 := by omega
    have hs' : k + 1 - k = 1 := by omega
    rw [hs, hs']
    have hrange : List.range' 1 k = List.range' 1 (k - 1) ++ [k] := by
      have h := @List.range'_concat 1 1 (k - 1)
      rw [show (k - 1) + 1 = k from by omega] at h
      rw [h, show 1 + 1 * (k - 1) = k from by omega]
    rw [hrange, List.reverse_append]
    simp only [List.reverse_cons, List.reverse_nil, List.nil_append,
      List.singleton_append]
    apply List.take_of_length_le
    simp only [List.length_cons, List.length_reverse, List.length_range']
    omega
  · obtain ⟨R', rfl⟩ : ∃ R', R = R' + 1 := ⟨R - 1, by omega⟩
    have hm : min (k - 1) (R' + 1) = R' + 1 := Nat.min_eq_right (by omega)
    have hm' : min k (R' + 1) = R' + 1 := Nat.min_eq_right (by omega)
    rw [hm, hm']
    have hrhs : List.range' (k + 1 - (R' + 1)) (R' + 1)
        = List.range' (k + 1 - (R' + 1)) R' ++ [k] := by
      have h := @List.range'_concat 1 (k + 1 - (R' + 1)) R'
      rw [show (k + 1 - (R' + 1)) + 1 * R' = k from by omega] at h
      exact h
    rw [hrhs, List.reverse_append]
    simp only [List.reverse_cons, List.reverse_nil, List.nil_append,
      List.singleton_append]
    rw [List.take_succ_cons]
    congr 1
    have hlhs : List.range' (k - (R' + 1)) (R' + 1)
        = (k - (R' + 1)) :: List.range' (k - (R' + 1) + 1) R' := by
      have h := List.range'_succ (k - (R' + 1)) R' 1
      rw [h]
    rw [hlhs, List.reverse_cons]
    rw [List.take_append_of_le_length
      (by simp only [List.length_reverse, List.length_range']; omega)]
    rw [List.take_of_length_le
      (by simp only [List.length_reverse, List.length_range']; omega)]
    have harg : k - (R' + 1) + 1 = k + 1 - (R' + 1) := by omega
    rw [harg]

/-- State of the auth directory after `k` sync writes (`1 ≤ k ≤ N`) from a
clean start: the target holds the last write, and the backups are exactly
the newest `min (k-1) R` of the `k-1` snapshots, newest first. -/
theorem syncSeq_inv (base : String) (auths : Nat → AuthData) (dates : Nat → DateT)
    (pid R N : Nat) (hR : 0 < R)
    (hinc : ∀ j, j < N → ∀ i, i < j → backupSuffix (dates i) < backupSuffix (dates j))
    (htmp : ∀ k, k < N → tmpName pid (dates k) ≠ base ∧
      jsStartsWith (tmpName pid (dates k)) (base ++ ".bak.") = false) :
    ∀ k, 1 ≤ k → k ≤ N →
      syncSeq base auths dates pid R k
        = ((List.range' (k - min (k - 1) R) (min (k - 1) R)).reverse.map
            (fun j => (base ++ ".bak." ++ backupSuffix (dates j),
              Json.obj (buildCodexAuthJson (auths (j - 1))))))
          ++ [(base, Json.obj (buildCodexAuthJson (auths (k - 1))))] := by
  intro k
  induction k with
  | zero => omega
  | succ k ih =>
    intro h1 hN
    by_cases hk0 : k = 0
    · subst hk0
      show syncCodexAuthFile (syncSeq base auths dates pid R 0) base (auths 0)
        (dates 0) pid (some (R : Int)) = _
      rw [show syncSeq base auths dates pid R 0 = [] from rfl,
        syncCodexAuthFile_empty base (auths 0) (dates 0) pid R hR]
      simp
    · have hk1 : 1 ≤ k := by omega
      have hkN : k < N := by omega
      have hIH := ih hk1 (by omega)
      show syncCodexAuthFile (syncSeq base auths dates pid R k) base (auths k)
        (dates k) pid (some (R : Int)) = _
      rw [hIH]
      have hidxlt : ∀ j ∈ (List.range' (k - min (k - 1) R) (min (k - 1) R)).reverse,
          j < k := by
        intro j hj
        rw [List.mem_reverse] at hj
        have := (List.mem_range'_1.mp hj).2
        omega
      have hstep := sync_step base (auths k) (dates k) pid R hR
        ((List.range' (k - min (k - 1) R) (min (k - 1) R)).reverse.map
          (fun j => (base ++ ".bak." ++ backupSuffix (dates j),
            Json.obj (buildCodexAuthJson (auths (j - 1))))))
        (Json.obj (buildCodexAuthJson (auths (k - 1))))
        ((List.range' (k - min (k - 1) R) (min (k - 1) R)).reverse.map
          (fun j => backupSuffix (dates j)))
        (by rw [List.map_map, List.map_map]; rfl)
        (by
          rw [List.pairwise_map]
          have hpw : (List.range' (k - min (k - 1) R) (min (k - 1) R)).reverse.Pairwise
              (fun x y => y < x) := by
            rw [List.pairwise_reverse]
            exact List.pairwise_lt_range' _ _ 1
          refine hpw.imp_of_mem ?_
          intro x y hx hy hxy
          exact hinc x (Nat.lt_trans (hidxlt x hx) hkN) y hxy)
        (by
          intro s hs
          rcases List.mem_map.mp hs with ⟨j, hj, rfl⟩
          exact hinc k hkN j (hidxlt j hj))
        (htmp k hkN).1 (htmp k hkN).2
      rw [hstep]
      have hcons : ((base ++ ".bak." ++ backupSuffix (dates k),
            Json.obj (buildCodexAuthJson (auths (k - 1))))
          :: (List.range' (k - min (k - 1) R) (min (k - 1) R)).reverse.map
            (fun j => (base ++ ".bak." ++ backupSuffix (dates j),
              Json.obj (buildCodexAuthJson (auths (j - 1))))))
          = (k :: (List.range' (k - min (k - 1) R) (min (k - 1) R)).reverse).map
            (fun j => (base ++ ".bak." ++ backupSuffix (dates j),
              Json.obj (buildCodexAuthJson (auths (j - 1))))) := by
        rw [List.map_cons]
      rw [hcons, ← List.map_take, take_cons_range'_reverse k R hk1 hR]
      have h1 : k + 1 - 1 = k := by omega
      rw [h1]

/-- Claim C6: for retention `R > 0` and `N > R` sync writes to the same
target (at strictly increasing timestamps, with temporary-file names that
do not collide with the target or its backups), after the last write
exactly `R` backup files remain, and they are precisely the `R` most
recent by the timestamp embedded in their names (indices `N-R … N-1`,
newest first).  Moreover pruning to `R` happens on every sync: a sync that
creates no backup (no target file present) still prunes a pre-existing
backup set down to its newest `R`. -/
theorem backup_retention (R N : Nat) (hR : 0 < R) (hN : R < N)
    (base : String) (auths : Nat → AuthData) (dates : Nat → DateT) (pid : Nat)
    (hinc : ∀ j, j < N → ∀ i, i < j →
      backupSuffix (dates i) < backupSuffix (dates j))
    (htmp : ∀ k, k < N → tmpName pid (dates k) ≠ base ∧
      jsStartsWith (tmpName pid (dates k)) (base ++ ".bak.") = false) :
    (backupNames (syncSeq base auths dates pid R N) base
        = (List.range' (N - R) R).reverse.map
            (fun j => base ++ ".bak." ++ backupSuffix (dates j))
      ∧ (backupNames (syncSeq base auths dates pid R N) base).length = R)
    ∧ ∀ (bs : List String) (cont : String → Json) (a : AuthData) (d : DateT),
        bs.Pairwise (fun x y => y < x) →
        jsStartsWith (tmpName pid d) (base ++ ".bak.") = false →
        backupNames
          (syncCodexAuthFile (bs.map fun s => (base ++ ".bak." ++ s, cont s))
            base a d pid (some (R : Int))) base
          = (bs.take R).map (fun s => base ++ ".bak." ++ s) := by
  have hinv := syncSeq_inv base auths dates pid R N hR hinc htmp N (by omega)
    (le_refl N)
  have hmin : min (N - 1) R = R := Nat.min_eq_right (by omega)
  rw [hmin] at hinv
  have hA : backupNames (syncSeq base auths dates pid R N) base
      = (List.range' (N - R) R).reverse.map
        (fun j => base ++ ".bak." ++ backupSuffix (dates j)) := by
    unfold backupNames
    rw [hinv, List.map_append, List.map_map, List.filter_append]
    have h1 : (((List.range' (N - R) R).reverse.map
        (Prod.fst ∘ fun j => (base ++ ".bak." ++ backupSuffix (dates j),
          Json.obj (buildCodexAuthJson (auths (j - 1))))))).filter
        (fun n => jsStartsWith n (base ++ ".bak.")) =
        ((List.range' (N - R) R).reverse.map
          (Prod.fst ∘ fun j => (base ++ ".bak." ++ backupSuffix (dates j),
            Json.obj (buildCodexAuthJson (auths (j - 1)))))) := by
      apply List.filter_eq_self.mpr
      intro n hn
      rcases List.mem_map.mp hn with ⟨j, -, rfl⟩
      exact startsWith_bakPrefix base _
    rw [h1]
    have h2 : (([(base, Json.obj (buildCodexAuthJson (auths (N - 1))))].map
        Prod.fst).filter (fun n => jsStartsWith n (base ++ ".bak."))) = [] := by
      simp [List.filter_cons, base_not_startsWith_bakPrefix]
    rw [h2, List.append_nil]
    rfl
  refine ⟨⟨hA, ?_⟩, ?_⟩
  · rw [hA]
    simp only [List.length_map, List.length_reverse, List.length_range']
  · intro bs cont a d hdesc htmp2
    rw [sync_step_no_target base a d pid R hR
      (bs.map fun s => (base ++ ".bak." ++ s, cont s)) bs
      (by rw [List.map_map]; rfl) hdesc htmp2]
    unfold backupNames
    rw [List.map_cons, List.filter_cons]
    rw [show (jsStartsWith base (base ++ ".bak.")) = false from
      base_not_startsWith_bakPrefix base]
    simp only [Bool.false_eq_true, if_false]
    have hmt : List.map Prod.fst
        (List.take R (List.map (fun s => (base ++ ".bak." ++ s, cont s)) bs))
        = List.map (fun s => base ++ ".bak." ++ s) (List.take R bs) := by
      rw [← List.map_take, List.map_map]
      rfl
    rw [hmt]
    apply List.filter_eq_self.mpr
    intro n hn
    rcases List.mem_map.mp hn with ⟨s, -, rfl⟩
    exact startsWith_bakPrefix base s

/-- Concrete instance of claim C6's theorem: two writes with retention 1
leave exactly the single newest backup. -/
theorem backup_retention_witness :
    backupNames (syncSeq "auth.json" (fun _ => c6Auth) c6Dates 1 1 2) "auth.json"
      = (List.range' 1 1).reverse.map
          (fun j => "auth.json" ++ ".bak." ++ backupSuffix (c6Dates j)) ∧
    (backupNames (syncSeq "auth.json" (fun _ => c6Auth) c6Dates 1 1 2)
      "auth.json").length = 1 :=
  (backup_retention 1 2 (by decide) (by decide) "auth.json" (fun _ => c6Auth)
    c6Dates 1
    (by
      intro j hj i hi
      interval_cases j
      · omega
      · interval_cases i
        exact String.lt_iff_toList_lt.mpr (by decide))
    (by
      intro k hk
      interval_cases k
      · exact ⟨by decide, by decide⟩
      · exact ⟨by decide, by decide⟩)).1
